import Mathlib

set_option maxHeartbeats 1000000
set_option maxRecDepth 8000

/-!
Verification of the configuration/state core of px (src/px/config.py).

Shallow embedding notes:
* Machine integers of Python are unbounded, modeled by `Int`/`Nat`.
* Python floats are modeled by exact rationals (`Rat`); every value a Python
  binary64 float can hold has a denominator dividing a power of ten, and the
  `str`/`float` round-trip of CPython is modeled by an exact decimal
  parser/printer pair.
* Python `str.strip()` is modeled on ASCII whitespace.
* Python `int(..)`/`float(..)` literal syntax is modeled without underscore
  separators, non-ASCII digits and "inf"/"nan" forms, which the program never
  relies on.
* Fallible code and `sys.exit` / uncaught exceptions are modeled with
  `Except`.
-/

/-! ## Python-style character and string primitives -/

def isPySpace (c : Char) : Bool :=
  c.toNat = 32 || c.toNat = 9 || c.toNat = 10 || c.toNat = 13 || c.toNat = 11 || c.toNat = 12

/-- Model of Python `str.strip()` (ASCII whitespace). -/
def stripL (l : List Char) : List Char :=
  ((l.dropWhile isPySpace).reverse.dropWhile isPySpace).reverse

def pyStrip (s : String) : String := ⟨stripL s.data⟩

def isDigitC (c : Char) : Bool := 48 ≤ c.toNat && c.toNat ≤ 57

def charDigitVal (c : Char) : Nat := c.toNat - 48

/-- Value of a big-endian list of decimal digit characters. -/
def digitsVal (l : List Char) : Nat := l.foldl (fun a c => a * 10 + charDigitVal c) 0

/-- Decimal digit characters of `n` (big-endian), via fuel so that the kernel
can evaluate it. -/
def natCharsAux : Nat → Nat → List Char
  | 0, _ => []
  | fuel + 1, n => if n = 0 then [] else natCharsAux fuel (n / 10) ++ [Nat.digitChar (n % 10)]

/-- Model of Python `str(n)` for a nonnegative integer. -/
def natChars (n : Nat) : List Char := if n = 0 then ['0'] else natCharsAux n n

def strOfNat (n : Nat) : String := ⟨natChars n⟩

/-- Model of Python `str(i)` for an integer. -/
def strOfInt (i : Int) : String :=
  if i < 0 then "-" ++ strOfNat i.natAbs else strOfNat i.natAbs

/-- Model of Python `int(s)` on a string: strip, optional sign, decimal digits. -/
def pyInt? (s : String) : Option Int :=
  match stripL s.data with
  | [] => none
  | c :: r =>
    if c = '-' then (if !r.isEmpty && r.all isDigitC then some (-(digitsVal r : Int)) else none)
    else if c = '+' then (if !r.isEmpty && r.all isDigitC then some ((digitsVal r : Int)) else none)
    else if !(c :: r).isEmpty && (c :: r).all isDigitC then some ((digitsVal (c :: r) : Int)) else none

/-! ## Basic lemmas about the primitives -/

theorem dropWhile_eq_self_of_all {p : Char → Bool} {l : List Char}
    (h : ∀ c ∈ l, p c = false) : l.dropWhile p = l := by
  cases l with
  | nil => rfl
  | cons c t =>
    rw [List.dropWhile_cons]
    simp [h c (List.mem_cons_self c t)]

theorem stripL_eq_self_of_all {l : List Char}
    (h : ∀ c ∈ l, isPySpace c = false) : stripL l = l := by
  unfold stripL
  rw [dropWhile_eq_self_of_all h]
  rw [dropWhile_eq_self_of_all (fun c hc => h c (List.mem_reverse.mp hc))]
  exact List.reverse_reverse l

theorem stripL_all_of_all {p : Char → Bool} {l : List Char}
    (h : ∀ c ∈ l, p c = true) : ∀ c ∈ stripL l, p c = true := by
  intro c hc
  apply h
  unfold stripL at hc
  have h1 := List.dropWhile_sublist (l := (l.dropWhile isPySpace).reverse) (p := isPySpace)
  have h2 := List.dropWhile_sublist (l := l) (p := isPySpace)
  rw [List.mem_reverse] at hc
  have := h1.mem hc
  rw [List.mem_reverse] at this
  exact h2.mem this

theorem head?_dropWhile_false {p : Char → Bool} :
    ∀ (l : List Char) {c : Char}, (l.dropWhile p).head? = some c → p c = false := by
  intro l
  induction l with
  | nil => intro c h; simp at h
  | cons a t ih =>
    intro c h
    rw [List.dropWhile_cons] at h
    by_cases hp : p a = true
    · rw [if_pos hp] at h; exact ih h
    · rw [if_neg hp] at h
      simp at h
      rw [← h]
      exact Bool.not_eq_true _ |>.mp hp

theorem dropWhile_eq_self_of_head {p : Char → Bool} {l : List Char}
    (h : ∀ c, l.head? = some c → p c = false) : l.dropWhile p = l := by
  cases l with
  | nil => rfl
  | cons a t =>
    rw [List.dropWhile_cons, if_neg]
    simp [h a rfl]

theorem getLast?_dropWhile {p : Char → Bool} :
    ∀ (l : List Char), l.dropWhile p ≠ [] → (l.dropWhile p).getLast? = l.getLast? := by
  intro l
  induction l with
  | nil => intro h; simp [List.dropWhile] at h
  | cons a t ih =>
    intro h
    rw [List.dropWhile_cons] at h ⊢
    by_cases hp : p a = true
    · rw [if_pos hp] at h ⊢
      have ht : t ≠ [] := by
        intro he; rw [he] at h; simp [List.dropWhile] at h
      rw [ih h]
      cases t with
      | nil => exact absurd rfl ht
      | cons b t2 => rw [List.getLast?_cons_cons]
    · rw [if_neg hp]

theorem stripL_getLast {l : List Char} {c : Char}
    (h : (stripL l).getLast? = some c) : isPySpace c = false := by
  unfold stripL at h
  rw [List.getLast?_reverse] at h
  exact head?_dropWhile_false _ h

theorem stripL_head {l : List Char} {c : Char}
    (h : (stripL l).head? = some c) : isPySpace c = false := by
  unfold stripL at h
  rw [List.head?_reverse] at h
  have hne : (l.dropWhile isPySpace).reverse.dropWhile isPySpace ≠ [] := by
    intro he; rw [he] at h; simp at h
  rw [getLast?_dropWhile _ hne, List.getLast?_reverse] at h
  exact head?_dropWhile_false _ h

theorem stripL_def (l : List Char) :
    stripL l = ((l.dropWhile isPySpace).reverse.dropWhile isPySpace).reverse := rfl

theorem stripL_idem (l : List Char) : stripL (stripL l) = stripL l := by
  have h1 : (stripL l).dropWhile isPySpace = stripL l :=
    dropWhile_eq_self_of_head fun c hc => stripL_head hc
  have h2 : (stripL l).reverse.dropWhile isPySpace = (stripL l).reverse := by
    apply dropWhile_eq_self_of_head
    intro c hc
    rw [List.head?_reverse] at hc
    exact stripL_getLast hc
  rw [stripL_def (stripL l), h1, h2, List.reverse_reverse]

theorem digitsVal_append (l1 l2 : List Char) :
    digitsVal (l1 ++ l2) = l2.foldl (fun a c => a * 10 + charDigitVal c) (digitsVal l1) := by
  unfold digitsVal
  rw [List.foldl_append]

/-! ## Decimal digit round-trip lemmas -/

theorem charDigitVal_digitChar {d : Nat} (h : d < 10) :
    charDigitVal (Nat.digitChar d) = d := by
  interval_cases d <;> rfl

theorem isDigitC_digitChar {d : Nat} (h : d < 10) :
    isDigitC (Nat.digitChar d) = true := by
  interval_cases d <;> rfl

theorem digit_not_space {c : Char} (h : isDigitC c = true) : isPySpace c = false := by
  simp [isDigitC] at h
  simp [isPySpace]
  omega

theorem digit_ne_minus {c : Char} (h : isDigitC c = true) : ¬(c = '-') := by
  intro he
  subst he
  exact absurd h (by decide)

theorem digit_ne_plus {c : Char} (h : isDigitC c = true) : ¬(c = '+') := by
  intro he
  subst he
  exact absurd h (by decide)

theorem natCharsAux_all_digits :
    ∀ (fuel n : Nat), ∀ c ∈ natCharsAux fuel n, isDigitC c = true := by
  intro fuel
  induction fuel with
  | zero => intro n c hc; simp [natCharsAux] at hc
  | succ f ih =>
    intro n c hc
    unfold natCharsAux at hc
    by_cases hn : n = 0
    · rw [if_pos hn] at hc; simp at hc
    · rw [if_neg hn] at hc
      rcases List.mem_append.mp hc with h1 | h2
      · exact ih _ c h1
      · rw [List.mem_singleton] at h2
        subst h2
        exact isDigitC_digitChar (Nat.mod_lt n (by norm_num))

theorem natChars_all_digits (n : Nat) : ∀ c ∈ natChars n, isDigitC c = true := by
  intro c hc
  unfold natChars at hc
  by_cases hn : n = 0
  · rw [if_pos hn] at hc; rw [List.mem_singleton] at hc; subst hc; decide
  · rw [if_neg hn] at hc; exact natCharsAux_all_digits n n c hc

theorem digitsVal_natCharsAux :
    ∀ (fuel n : Nat), n ≤ fuel → digitsVal (natCharsAux fuel n) = n := by
  intro fuel
  induction fuel with
  | zero => intro n h; interval_cases n; rfl
  | succ f ih =>
    intro n h
    unfold natCharsAux
    by_cases hn : n = 0
    · rw [if_pos hn, hn]; rfl
    · rw [if_neg hn, digitsVal_append]
      simp only [List.foldl_cons, List.foldl_nil]
      have hdiv : n / 10 ≤ f := by
        have : n / 10 < n := Nat.div_lt_self (Nat.pos_of_ne_zero hn) (by norm_num)
        omega
      rw [ih (n / 10) hdiv, charDigitVal_digitChar (Nat.mod_lt n (by norm_num))]
      omega

theorem digitsVal_natChars (n : Nat) : digitsVal (natChars n) = n := by
  unfold natChars
  by_cases hn : n = 0
  · rw [if_pos hn, hn]; rfl
  · rw [if_neg hn]; exact digitsVal_natCharsAux n n (le_refl n)

theorem natCharsAux_length_le :
    ∀ (fuel n k : Nat), n < 10 ^ k → (natCharsAux fuel n).length ≤ k := by
  intro fuel
  induction fuel with
  | zero => intro n k _; simp [natCharsAux]
  | succ f ih =>
    intro n k hk
    unfold natCharsAux
    by_cases hn : n = 0
    · rw [if_pos hn]; simp
    · rw [if_neg hn]
      rw [List.length_append, List.length_singleton]
      have hk1 : 1 ≤ k := by
        by_contra hc
        push_neg at hc
        interval_cases k
        simp at hk
        omega
      have hdivk : n / 10 < 10 ^ (k - 1) := by
        rw [Nat.div_lt_iff_lt_mul (by norm_num : 0 < 10)]
        calc n < 10 ^ k := hk
        _ = 10 ^ (k - 1) * 10 := by
              rw [← pow_succ]
              congr 1
              omega
      have := ih (n / 10) (k - 1) hdivk
      omega

theorem natChars_length_le {n k : Nat} (hn : n < 10 ^ k) (hk : 1 ≤ k) :
    (natChars n).length ≤ k := by
  unfold natChars
  by_cases h0 : n = 0
  · rw [if_pos h0]; simpa using hk
  · rw [if_neg h0]; exact natCharsAux_length_le n n k hn

theorem natCharsAux_ne_nil :
    ∀ (fuel n : Nat), n ≠ 0 → n ≤ fuel → natCharsAux fuel n ≠ [] := by
  intro fuel
  induction fuel with
  | zero => intro n h0 h1; omega
  | succ f _ =>
    intro n h0 _
    unfold natCharsAux
    rw [if_neg h0]
    simp

theorem natChars_ne_nil (n : Nat) : natChars n ≠ [] := by
  unfold natChars
  by_cases h0 : n = 0
  · rw [if_pos h0]; simp
  · rw [if_neg h0]
    exact natCharsAux_ne_nil n n h0 (le_refl n)

theorem stripL_eq_self_of_digits {l : List Char}
    (h : ∀ c ∈ l, isDigitC c = true) : stripL l = l :=
  stripL_eq_self_of_all fun c hc => digit_not_space (h c hc)

theorem pyInt?_of_digits {l : List Char} (hne : l ≠ [])
    (hd : ∀ c ∈ l, isDigitC c = true) :
    pyInt? ⟨l⟩ = some ((digitsVal l : Int)) := by
  unfold pyInt?
  rw [show String.data ⟨l⟩ = l from rfl, stripL_eq_self_of_digits hd]
  obtain ⟨c, r, rfl⟩ := List.exists_cons_of_ne_nil hne
  simp only
  rw [if_neg (digit_ne_minus (hd c (List.mem_cons_self c r))),
      if_neg (digit_ne_plus (hd c (List.mem_cons_self c r))), if_pos]
  simp only [List.isEmpty_cons, Bool.not_false, Bool.true_and]
  exact List.all_eq_true.mpr fun x hx => hd x hx

theorem pyInt?_strOfNat (n : Nat) : pyInt? (strOfNat n) = some ((n : Int)) := by
  unfold strOfNat
  rw [pyInt?_of_digits (natChars_ne_nil n) (natChars_all_digits n), digitsVal_natChars]

theorem pyInt?_strOfInt (i : Int) : pyInt? (strOfInt i) = some i := by
  by_cases h : i < 0
  · unfold strOfInt
    rw [if_pos h]
    obtain ⟨c, r, he⟩ := List.exists_cons_of_ne_nil (natChars_ne_nil i.natAbs)
    have hd : ∀ x ∈ c :: r, isDigitC x = true := by
      rw [← he]; exact natChars_all_digits _
    unfold pyInt?
    have hdata : (("-" ++ strOfNat i.natAbs).data) = '-' :: natChars i.natAbs := rfl
    rw [hdata, he]
    have hall : ∀ x ∈ '-' :: c :: r, isPySpace x = false := by
      intro x hx
      rcases List.mem_cons.mp hx with h1 | h2
      · subst h1; decide
      · exact digit_not_space (hd x h2)
    rw [stripL_eq_self_of_all hall]
    simp only
    rw [if_pos trivial, if_pos (by
      simp only [List.isEmpty_cons, Bool.not_false, Bool.true_and]
      exact List.all_eq_true.mpr hd)]
    have hv : digitsVal (c :: r) = i.natAbs := by rw [← he, digitsVal_natChars]
    rw [hv]
    congr 1
    omega
  · unfold strOfInt
    rw [if_neg h, pyInt?_strOfNat]
    congr 1
    omega

theorem pyInt?_pyStrip (s : String) : pyInt? (pyStrip s) = pyInt? s := by
  unfold pyInt? pyStrip
  rw [show String.data (⟨stripL s.data⟩ : String) = stripL s.data from rfl, stripL_idem]

/-! ## Model of Python float literals as exact rationals

CPython floats are binary64 values; every such value is a rational with a
denominator dividing a power of ten, and `str` prints a decimal expansion that
`float` parses back to the same value.  The model keeps the exact rational:
`pyFloat?` parses the decimal/exponent literal grammar and `floatStr` prints
the exact decimal expansion (always in fixed-point notation; the
exponent-notation switch of CPython for extreme magnitudes is not modeled). -/

def parseExpPart (l : List Char) : Option Int :=
  match l with
  | [] => none
  | c :: r =>
    if c = '-' then (if !r.isEmpty && r.all isDigitC then some (-(digitsVal r : Int)) else none)
    else if c = '+' then (if !r.isEmpty && r.all isDigitC then some ((digitsVal r : Int)) else none)
    else if !(c :: r).isEmpty && (c :: r).all isDigitC then some ((digitsVal (c :: r) : Int)) else none

/-- Value of an integer-part/fraction-part digit pair, built with `mkRat` so
that the kernel can evaluate it. -/
def mantVal (ip fp : List Char) : Rat :=
  mkRat ((digitsVal ip * 10 ^ fp.length + digitsVal fp : Nat)) (10 ^ fp.length)

/-- Value of mantissa `n`, fraction length `L`, decimal exponent `x`. -/
def sciVal (n L : Nat) (x : Int) : Rat :=
  if 0 ≤ x then mkRat ((n * 10 ^ x.toNat : Nat)) (10 ^ L)
  else mkRat ((n : Nat)) (10 ^ (L + (-x).toNat))

def parseUFloat? (l : List Char) : Option Rat :=
  match l.dropWhile isDigitC with
  | [] =>
    if (l.takeWhile isDigitC).isEmpty then none
    else some ((digitsVal (l.takeWhile isDigitC) : Rat))
  | c :: r2 =>
    if c = '.' then
      match r2.dropWhile isDigitC with
      | [] =>
        if (l.takeWhile isDigitC).isEmpty && (r2.takeWhile isDigitC).isEmpty then none
        else some (mantVal (l.takeWhile isDigitC) (r2.takeWhile isDigitC))
      | e :: r4 =>
        if (e = 'e' || e = 'E') && !((l.takeWhile isDigitC).isEmpty && (r2.takeWhile isDigitC).isEmpty) then
          (parseExpPart r4).map (fun x =>
            sciVal (digitsVal (l.takeWhile isDigitC) * 10 ^ (r2.takeWhile isDigitC).length
                      + digitsVal (r2.takeWhile isDigitC))
                   (r2.takeWhile isDigitC).length x)
        else none
    else if (c = 'e' || c = 'E') && !(l.takeWhile isDigitC).isEmpty then
      (parseExpPart r2).map (fun x => sciVal (digitsVal (l.takeWhile isDigitC)) 0 x)
    else none

/-- Model of Python `float(s)` on a string. -/
def pyFloat? (s : String) : Option Rat :=
  match stripL s.data with
  | [] => none
  | c :: r =>
    if c = '-' then (parseUFloat? r).map (fun q => -q)
    else if c = '+' then parseUFloat? r
    else parseUFloat? (c :: r)

/-- Smallest trailing decimal length: first `k` with `den ∣ 10 ^ k`. -/
def fracLenAux (den : Nat) : Nat → Nat → Nat
  | 0, k => k
  | fuel + 1, k => if den ∣ 10 ^ k then k else fracLenAux den fuel (k + 1)

def fracLen (den : Nat) : Nat := fracLenAux den (den + 1) 0

/-- Model of Python `str(f)` for a float, printing the exact decimal
expansion of the rational (fixed-point notation). -/
def floatStr (q : Rat) : String :=
  let k := fracLen q.den
  let scaled := q.num.natAbs * (10 ^ k / q.den)
  let ip := scaled / 10 ^ k
  let fp := scaled % 10 ^ k
  let sgn : String := if q < 0 then "-" else ""
  if k = 0 then sgn ++ strOfNat ip ++ ".0"
  else sgn ++ strOfNat ip ++ "." ++ ⟨List.replicate (k - (natChars fp).length) '0' ++ natChars fp⟩

/-! ## Lemmas for the float round trip -/

theorem takeWhile_eq_self_of_all {p : Char → Bool} {l : List Char}
    (h : ∀ c ∈ l, p c = true) : l.takeWhile p = l := by
  induction l with
  | nil => rfl
  | cons a t ih =>
    rw [List.takeWhile_cons, if_pos (h a (List.mem_cons_self a t))]
    rw [ih fun c hc => h c (List.mem_cons_of_mem a hc)]

theorem dropWhile_eq_nil_of_all {p : Char → Bool} {l : List Char}
    (h : ∀ c ∈ l, p c = true) : l.dropWhile p = [] := by
  induction l with
  | nil => rfl
  | cons a t ih =>
    rw [List.dropWhile_cons, if_pos (h a (List.mem_cons_self a t))]
    exact ih fun c hc => h c (List.mem_cons_of_mem a hc)

theorem takeWhile_append_cons {p : Char → Bool} (l1 : List Char) (c : Char) (l2 : List Char)
    (h1 : ∀ x ∈ l1, p x = true) (h2 : p c = false) :
    (l1 ++ c :: l2).takeWhile p = l1 := by
  induction l1 with
  | nil => simp [List.takeWhile_cons, h2]
  | cons a t ih =>
    rw [List.cons_append, List.takeWhile_cons, if_pos (h1 a (List.mem_cons_self a t))]
    rw [ih fun x hx => h1 x (List.mem_cons_of_mem a hx)]

theorem dropWhile_append_cons {p : Char → Bool} (l1 : List Char) (c : Char) (l2 : List Char)
    (h1 : ∀ x ∈ l1, p x = true) (h2 : p c = false) :
    (l1 ++ c :: l2).dropWhile p = c :: l2 := by
  induction l1 with
  | nil => simp [List.dropWhile_cons, h2]
  | cons a t ih =>
    rw [List.cons_append, List.dropWhile_cons, if_pos (h1 a (List.mem_cons_self a t))]
    exact ih fun x hx => h1 x (List.mem_cons_of_mem a hx)

theorem digitsVal_replicate_zero (z : Nat) (l : List Char) :
    digitsVal (List.replicate z '0' ++ l) = digitsVal l := by
  rw [digitsVal_append]
  have hz : digitsVal (List.replicate z '0') = 0 := by
    induction z with
    | zero => rfl
    | succ n ih =>
      rw [List.replicate_succ]
      unfold digitsVal at ih ⊢
      rw [List.foldl_cons]
      simpa using ih
  rw [hz]
  rfl

theorem dvd_ten_pow_self : ∀ (den : Nat), (∃ m, den ∣ 10 ^ m) → den ∣ 10 ^ den := by
  intro den
  induction den using Nat.strong_induction_on with
  | _ den ih =>
    rintro ⟨m, h⟩
    rcases Nat.eq_zero_or_pos den with h0 | hpos
    · subst h0
      exact absurd (Nat.eq_zero_of_zero_dvd h) (pow_ne_zero m (by norm_num))
    rcases Nat.lt_or_ge den 2 with h1 | h2
    · interval_cases den
      · simp
    · obtain ⟨p, hp, hpd⟩ := Nat.exists_prime_and_dvd (by omega : den ≠ 1)
      have hp10 : p ∣ 10 := hp.dvd_of_dvd_pow (hpd.trans h)
      obtain ⟨d, hd⟩ := hpd
      have hdne : 0 < d := by
        rcases Nat.eq_zero_or_pos d with h' | h'
        · subst h'; omega
        · exact h'
      have hplt : 2 ≤ p := hp.two_le
      have hdlt : d < den := by
        have : 2 * d ≤ p * d := Nat.mul_le_mul_right d hplt
        omega
      have hd2 : d ∣ den := Dvd.intro_left p hd.symm
      have hddvd : d ∣ 10 ^ m := hd2.trans h
      have ihd := ih d hdlt ⟨m, hddvd⟩
      have hstep : den ∣ 10 ^ (d + 1) := by
        rw [hd, pow_succ, mul_comm (10 ^ d) 10]
        exact mul_dvd_mul hp10 ihd
      exact hstep.trans (pow_dvd_pow 10 (by omega : d + 1 ≤ den))

theorem fracLenAux_dvd (den : Nat) :
    ∀ (fuel k : Nat), (∃ j, k ≤ j ∧ j ≤ k + fuel ∧ den ∣ 10 ^ j) →
      den ∣ 10 ^ (fracLenAux den fuel k) := by
  intro fuel
  induction fuel with
  | zero =>
    rintro k ⟨j, hj1, hj2, hj3⟩
    have : j = k := by omega
    subst this
    exact hj3
  | succ f ih =>
    rintro k ⟨j, hj1, hj2, hj3⟩
    unfold fracLenAux
    by_cases hk : den ∣ 10 ^ k
    · rw [if_pos hk]; exact hk
    · rw [if_neg hk]
      apply ih
      refine ⟨j, ?_, by omega, hj3⟩
      rcases Nat.eq_or_lt_of_le hj1 with he | hlt
      · exact absurd (he ▸ hj3) hk
      · omega

theorem fracLen_dvd {den m : Nat} (h : den ∣ 10 ^ m) : den ∣ 10 ^ (fracLen den) := by
  apply fracLenAux_dvd
  exact ⟨den, Nat.zero_le den, by omega, dvd_ten_pow_self den ⟨m, h⟩⟩

theorem data_append (s t : String) : (s ++ t).data = s.data ++ t.data := rfl

theorem parseUFloat?_digits_dot_digits {ipc fpc : List Char}
    (hne : ipc ≠ []) (hipd : ∀ c ∈ ipc, isDigitC c = true)
    (hfpd : ∀ c ∈ fpc, isDigitC c = true) :
    parseUFloat? (ipc ++ '.' :: fpc) = some (mantVal ipc fpc) := by
  unfold parseUFloat?
  rw [dropWhile_append_cons ipc '.' fpc hipd (by decide)]
  simp only
  rw [if_pos trivial]
  rw [dropWhile_eq_nil_of_all hfpd]
  simp only
  rw [takeWhile_append_cons ipc '.' fpc hipd (by decide),
      takeWhile_eq_self_of_all hfpd]
  obtain ⟨c0, t0, rfl⟩ := List.exists_cons_of_ne_nil hne
  simp

theorem mantVal_eq_div (ip fp : List Char) :
    mantVal ip fp =
      ((digitsVal ip * 10 ^ fp.length + digitsVal fp : Nat) : Rat) / ((10 : Rat) ^ fp.length) := by
  unfold mantVal
  rw [Rat.mkRat_eq_divInt, Rat.divInt_eq_div]
  push_cast
  ring

theorem mantVal_eq (scaled k : Nat) {F : List Char}
    (hlen : F.length = k) (hF : digitsVal F = scaled % 10 ^ k) :
    mantVal (natChars (scaled / 10 ^ k)) F = ((scaled : Rat)) / ((10 : Rat) ^ k) := by
  rw [mantVal_eq_div]
  rw [digitsVal_natChars, hlen, hF]
  have hsum : scaled / 10 ^ k * 10 ^ k + scaled % 10 ^ k = scaled := by
    rw [mul_comm]; exact Nat.div_add_mod scaled (10 ^ k)
  rw [hsum]

theorem strOfNat_data (n : Nat) : (strOfNat n).data = natChars n := rfl

theorem natAbs_div_den (q : Rat) : ((q.num.natAbs : Rat)) / ((q.den : Rat)) = |q| := by
  rw [Int.cast_natAbs, Int.cast_abs]
  rw [← abs_of_pos (show (0 : Rat) < (q.den : Rat) by exact_mod_cast q.pos)]
  rw [← abs_div, Rat.num_div_den]


theorem floatStr_data (q : Rat) :
    (floatStr q).data =
      (if q < 0 then ['-'] else []) ++
      (natChars (q.num.natAbs * (10 ^ fracLen q.den / q.den) / 10 ^ fracLen q.den) ++
       '.' :: (if fracLen q.den = 0 then ['0']
               else List.replicate
                      (fracLen q.den -
                        (natChars (q.num.natAbs * (10 ^ fracLen q.den / q.den) % 10 ^ fracLen q.den)).length)
                      '0'
                    ++ natChars (q.num.natAbs * (10 ^ fracLen q.den / q.den) % 10 ^ fracLen q.den))) := by
  unfold floatStr
  by_cases hk0 : fracLen q.den = 0 <;> by_cases hq : q < 0 <;>
    simp [hk0, hq, data_append, strOfNat_data]

theorem pyFloat?_floatStr {q : Rat} {m : Nat} (h : q.den ∣ 10 ^ m) :
    pyFloat? (floatStr q) = some q := by
  have hdvd : q.den ∣ 10 ^ fracLen q.den := fracLen_dvd h
  have hdenpos : 0 < q.den := q.pos
  have hdata := floatStr_data q
  generalize hk : fracLen q.den = k at hdata hdvd
  generalize hsc : q.num.natAbs * (10 ^ k / q.den) = scaled at hdata
  have hscale_eq : scaled * q.den = q.num.natAbs * 10 ^ k := by
    rw [← hsc, mul_assoc, Nat.div_mul_cancel hdvd]
  have h10k : ((10 : Rat) ^ k) ≠ 0 := by positivity
  have hdenQ : ((q.den : Rat)) ≠ 0 := by exact_mod_cast hdenpos.ne'
  have hscaledQ : ((scaled : Rat)) / ((10 : Rat) ^ k) = ((q.num.natAbs : Rat)) / ((q.den : Rat)) := by
    rw [div_eq_div_iff h10k hdenQ]
    have hc := congrArg (fun n : Nat => ((n : Rat))) hscale_eq
    push_cast at hc ⊢
    linarith [hc]
  have hfinal : ∀ (F : List Char), F ≠ [] → (∀ c ∈ F, isDigitC c = true) →
      mantVal (natChars (scaled / 10 ^ k)) F = ((scaled : Rat)) / ((10 : Rat) ^ k) →
      (floatStr q).data = (if q < 0 then ['-'] else []) ++
        (natChars (scaled / 10 ^ k) ++ '.' :: F) →
      pyFloat? (floatStr q) = some q := by
    intro F _ hFdig hFval hdata2
    have hnospace : ∀ c ∈ (if q < 0 then ['-'] else []) ++
        (natChars (scaled / 10 ^ k) ++ '.' :: F), isPySpace c = false := by
      intro c hc
      rcases List.mem_append.mp hc with h1 | h2
      · by_cases hq : q < 0
        · rw [if_pos hq, List.mem_singleton] at h1; subst h1; decide
        · rw [if_neg hq] at h1; simp at h1
      · rcases List.mem_append.mp h2 with h3 | h4
        · exact digit_not_space (natChars_all_digits _ c h3)
        · rcases List.mem_cons.mp h4 with h5 | h6
          · subst h5; decide
          · exact digit_not_space (hFdig c h6)
    unfold pyFloat?
    rw [hdata2, stripL_eq_self_of_all hnospace]
    by_cases hq : q < 0
    · rw [if_pos hq, List.singleton_append]
      simp only
      rw [if_pos trivial]
      rw [parseUFloat?_digits_dot_digits (natChars_ne_nil _) (natChars_all_digits _) hFdig]
      simp only [Option.map_some']
      rw [hFval, hscaledQ, natAbs_div_den, abs_of_neg hq, neg_neg]
    · rw [if_neg hq, List.nil_append]
      obtain ⟨c0, t0, hip⟩ := List.exists_cons_of_ne_nil (natChars_ne_nil (scaled / 10 ^ k))
      have hd0 : isDigitC c0 = true := by
        apply natChars_all_digits (scaled / 10 ^ k)
        rw [hip]; exact List.mem_cons_self c0 t0
      rw [hip, List.cons_append]
      simp only
      rw [if_neg (digit_ne_minus hd0), if_neg (digit_ne_plus hd0)]
      rw [← List.cons_append, ← hip]
      rw [parseUFloat?_digits_dot_digits (natChars_ne_nil _) (natChars_all_digits _) hFdig]
      rw [hFval, hscaledQ, natAbs_div_den, abs_of_nonneg (le_of_not_lt hq)]
  by_cases hk0 : k = 0
  · apply hfinal ['0'] (by simp)
    · intro c hc; rw [List.mem_singleton] at hc; subst hc; decide
    · subst hk0
      rw [mantVal_eq_div, digitsVal_natChars]
      have h1 : digitsVal ['0'] = 0 := rfl
      have h2 : ([('0' : Char)] : List Char).length = 1 := rfl
      rw [h1, h2]
      rw [Nat.pow_zero, Nat.div_one]
      push_cast
      rw [pow_zero, div_one]
      field_simp
    · rw [hdata, if_pos hk0]
  · apply hfinal
      (List.replicate (k - (natChars (scaled % 10 ^ k)).length) '0' ++ natChars (scaled % 10 ^ k))
    · intro he
      have := List.append_eq_nil.mp he
      exact natChars_ne_nil _ this.2
    · intro c hc
      rcases List.mem_append.mp hc with h1 | h2
      · rw [List.eq_of_mem_replicate h1]; decide
      · exact natChars_all_digits _ c h2
    · have hmodlt : scaled % 10 ^ k < 10 ^ k := Nat.mod_lt scaled (by positivity)
      have hlenle : (natChars (scaled % 10 ^ k)).length ≤ k :=
        natChars_length_le hmodlt (by omega)
      have hFlen : (List.replicate (k - (natChars (scaled % 10 ^ k)).length) '0'
          ++ natChars (scaled % 10 ^ k)).length = k := by
        rw [List.length_append, List.length_replicate]
        omega
      have hFval : digitsVal (List.replicate (k - (natChars (scaled % 10 ^ k)).length) '0'
          ++ natChars (scaled % 10 ^ k)) = scaled % 10 ^ k := by
        rw [digitsVal_replicate_zero, digitsVal_natChars]
      exact mantVal_eq scaled k hFlen hFval
    · rw [hdata, if_neg hk0]

theorem pyFloat?_pyStrip (s : String) : pyFloat? (pyStrip s) = pyFloat? s := by
  unfold pyFloat? pyStrip
  rw [show String.data (⟨stripL s.data⟩ : String) = stripL s.data from rfl, stripL_idem]

theorem pyStrip_idem (s : String) : pyStrip (pyStrip s) = pyStrip s := by
  unfold pyStrip
  rw [show String.data (⟨stripL s.data⟩ : String) = stripL s.data from rfl, stripL_idem]

theorem den_div_pow (A L : Nat) : (((A : Rat)) / ((10 : Rat) ^ L)).den ∣ 10 ^ L := by
  have h : ((A : Rat)) / ((10 : Rat) ^ L) = Rat.divInt ((A : Int)) ((10 ^ L : Int)) := by
    rw [Rat.divInt_eq_div]
    push_cast
    ring
  rw [h]
  have hd := Rat.den_dvd ((A : Int)) ((10 ^ L : Int))
  exact_mod_cast hd

theorem mkRat_den_dvd (n : Int) (d : Nat) : (mkRat n d).den ∣ d := by
  rw [Rat.mkRat_eq_divInt]
  have hd := Rat.den_dvd n ((d : Int))
  exact_mod_cast hd

theorem sciVal_den (n L : Nat) (x : Int) : ∃ m, (sciVal n L x).den ∣ 10 ^ m := by
  unfold sciVal
  by_cases hx : 0 ≤ x
  · rw [if_pos hx]; exact ⟨L, mkRat_den_dvd _ _⟩
  · rw [if_neg hx]; exact ⟨L + (-x).toNat, mkRat_den_dvd _ _⟩

theorem parseUFloat?_den {l : List Char} {q : Rat} (h : parseUFloat? l = some q) :
    ∃ m, q.den ∣ 10 ^ m := by
  unfold parseUFloat? at h
  cases hdrop : l.dropWhile isDigitC with
  | nil =>
    rw [hdrop] at h
    simp only at h
    by_cases he : (l.takeWhile isDigitC).isEmpty = true
    · rw [if_pos he] at h; exact absurd h (by simp)
    · rw [if_neg he] at h
      refine ⟨0, ?_⟩
      rw [← Option.some_inj.mp h]
      simp
  | cons c r2 =>
    rw [hdrop] at h
    simp only at h
    by_cases hc : c = '.'
    · rw [if_pos hc] at h
      cases hdrop2 : r2.dropWhile isDigitC with
      | nil =>
        rw [hdrop2] at h
        simp only at h
        by_cases he : ((l.takeWhile isDigitC).isEmpty && (r2.takeWhile isDigitC).isEmpty) = true
        · rw [if_pos he] at h; exact absurd h (by simp)
        · rw [if_neg he] at h
          refine ⟨(r2.takeWhile isDigitC).length, ?_⟩
          rw [← Option.some_inj.mp h]
          unfold mantVal
          exact mkRat_den_dvd _ _
      | cons e r4 =>
        rw [hdrop2] at h
        simp only at h
        by_cases he : ((e = 'e' || e = 'E') &&
            !((l.takeWhile isDigitC).isEmpty && (r2.takeWhile isDigitC).isEmpty)) = true
        · rw [if_pos he] at h
          obtain ⟨x, _, rfl⟩ := Option.map_eq_some'.mp h
          exact sciVal_den _ _ x
        · rw [if_neg he] at h; exact absurd h (by simp)
    · rw [if_neg hc] at h
      by_cases he : ((c = 'e' || c = 'E') && !(l.takeWhile isDigitC).isEmpty) = true
      · rw [if_pos he] at h
        obtain ⟨x, _, rfl⟩ := Option.map_eq_some'.mp h
        exact sciVal_den _ 0 x
      · rw [if_neg he] at h; exact absurd h (by simp)

theorem pyFloat?_den {s : String} {q : Rat} (h : pyFloat? s = some q) :
    ∃ m, q.den ∣ 10 ^ m := by
  unfold pyFloat? at h
  cases hstrip : stripL s.data with
  | nil => rw [hstrip] at h; exact absurd h (by simp)
  | cons c r =>
    rw [hstrip] at h
    simp only at h
    by_cases hc1 : c = '-'
    · rw [if_pos hc1] at h
      obtain ⟨q', hq', rfl⟩ := Option.map_eq_some'.mp h
      obtain ⟨m, hm⟩ := parseUFloat?_den hq'
      exact ⟨m, by rwa [Rat.neg_den]⟩
    · rw [if_neg hc1] at h
      by_cases hc2 : c = '+'
      · rw [if_pos hc2] at h; exact parseUFloat?_den h
      · rw [if_neg hc2] at h; exact parseUFloat?_den h

/-! ## Python values, the canonical store, and ambient environment -/

/-- Dynamic Python value as it flows through the configuration code. -/
inductive PyVal where
  | none
  | int (n : Int)
  | float (q : Rat)
  | str (s : String)
deriving DecidableEq

/-- Model of Python `str(v)`. -/
def pyStr : PyVal → String
  | .none => "None"
  | .int n => strOfInt n
  | .float q => floatStr q
  | .str s => s

/-- Model of Python `int(v)`, `ValueError` as `none`; `int` of a float
truncates toward zero.  (`int(None)` raises `TypeError`, which callers
model separately.) -/
def pyToInt : PyVal → Option Int
  | .int n => some n
  | .float q => some (Int.tdiv q.num ((q.den : Int)))
  | .str s => pyInt? s
  | .none => Option.none

/-- Model of Python `float(v)`, `ValueError` as `none`. -/
def pyToFloat : PyVal → Option Rat
  | .int n => some ((n : Rat))
  | .float q => some q
  | .str s => pyFloat? s
  | .none => Option.none

/-- Model of the Python comparison `v == 1`. -/
def pyEqOne : PyVal → Bool
  | .int n => n == 1
  | .float q => q == 1
  | _ => false

/-- The canonical store: `configparser` (section, option) to string value. -/
abbrev Store : Type := List ((String × String) × String)

def Store.get? : Store → String → String → Option String
  | [], _, _ => Option.none
  | e :: t, sec, name => if e.1 = (sec, name) then some e.2 else Store.get? t sec name

def Store.set : Store → String → String → String → Store
  | [], sec, name, v => [((sec, name), v)]
  | e :: t, sec, name, v =>
    if e.1 = (sec, name) then ((sec, name), v) :: t else e :: Store.set t sec name v

theorem Store.get?_cons (e : (String × String) × String) (t : Store) (sec name : String) :
    Store.get? (e :: t) sec name =
      if e.1 = (sec, name) then some e.2 else Store.get? t sec name := rfl

theorem Store.set_nil (sec name v : String) :
    Store.set [] sec name v = [((sec, name), v)] := rfl

theorem Store.set_cons (e : (String × String) × String) (t : Store) (sec name v : String) :
    Store.set (e :: t) sec name v =
      if e.1 = (sec, name) then ((sec, name), v) :: t else e :: Store.set t sec name v := rfl

theorem Store.get?_set_self (st : Store) (sec name v : String) :
    (st.set sec name v).get? sec name = some v := by
  induction st with
  | nil => rw [Store.set_nil, Store.get?_cons, if_pos rfl]
  | cons e t ih =>
    rw [Store.set_cons]
    by_cases he : e.1 = (sec, name)
    · rw [if_pos he, Store.get?_cons, if_pos rfl]
    · rw [if_neg he, Store.get?_cons, if_neg he]
      exact ih

theorem Store.get?_set_other (st : Store) {sec name sec2 name2 : String}
    (h : (sec, name) ≠ (sec2, name2)) (v : String) :
    (st.set sec name v).get? sec2 name2 = st.get? sec2 name2 := by
  induction st with
  | nil =>
    rw [Store.set_nil, Store.get?_cons, if_neg h]
  | cons e t ih =>
    rw [Store.set_cons]
    by_cases he : e.1 = (sec, name)
    · rw [if_pos he, Store.get?_cons, if_neg h, Store.get?_cons, if_neg (he ▸ h)]
    · rw [if_neg he, Store.get?_cons, Store.get?_cons]
      by_cases he2 : e.1 = (sec2, name2)
      · rw [if_pos he2, if_pos he2]
      · rw [if_neg he2, if_neg he2]
        exact ih

theorem Store.set_set_same (st : Store) (sec name v : String) :
    (st.set sec name v).set sec name v = st.set sec name v := by
  induction st with
  | nil => rw [Store.set_nil, Store.set_cons, if_pos rfl]
  | cons e t ih =>
    rw [Store.set_cons]
    by_cases he : e.1 = (sec, name)
    · rw [if_pos he, Store.set_cons, if_pos rfl]
    · rw [if_neg he, Store.set_cons, if_neg he, ih]

/-- Splitting a character list on a separator, Python `str.split(sep)`. -/
def splitOnChar (c : Char) : List Char → List (List Char)
  | [] => [[]]
  | x :: xs =>
    if x = c then [] :: splitOnChar c xs
    else
      match splitOnChar c xs with
      | h :: t => (x :: h) :: t
      | [] => [[x]]

/-- Handle to an attached `Debug` logger (stdout or a file). -/
inductive DebugHandle where
  | stdoutDebug
  | fileDebug (path : String)
deriving DecidableEq

/-- Allow/noproxy rule-set. Modelled from the spec: `wproxy.parse_noproxy`
(module not under src/) parses a comma-separated rule list restricted to IP
rules; an empty string yields the empty rule-set. -/
structure AllowRules where
  rules : List String
deriving DecidableEq

/-- Modelled from the spec: rule parsing of the proxy-source collaborator. -/
def parse_noproxy (s : String) : AllowRules :=
  ⟨(((splitOnChar ',' s.data).map (fun p => ((⟨stripL p⟩ : String)))).filter (fun x => x ≠ ""))⟩

/-- Ambient process environment seen by the configuration code: filesystem
existence, install/working directories, process information, and the
transport collaborator's auth-scheme validity check (the latter modelled
from the spec for `mcurl.getauth`). -/
structure Env where
  fs : String → Bool
  scriptDir : String
  cwd : String
  procName : String
  argv : List String
  timeStr : String
  authOk : String → Bool

/-- Abnormal termination of the configuration code: `sys.exit` after a
diagnostic, an uncaught `TypeError`, `configparser.NoOptionError`. -/
inductive PxErr where
  | exit (msg : String)
  | typeError
  | noOption
deriving DecidableEq

/-! ## Path and URL helpers (POSIX flavor) -/

def joinSlash : List String → String
  | [] => ""
  | [x] => x
  | x :: xs => x ++ "/" ++ joinSlash xs

/-- Model of `os.path.isabs`. -/
def pyIsAbs (p : String) : Bool :=
  match p.data with
  | '/' :: _ => true
  | _ => false

/-- Model of `os.path.join`. -/
def pyJoin (d p : String) : String :=
  if pyIsAbs p then p
  else if d = "" then p
  else if d.data.getLast? = some '/' then d ++ p
  else d ++ "/" ++ p

/-- Component folding of `os.path.normpath`. -/
def normComps (isAbs : Bool) (comps : List String) : List String :=
  comps.foldl (fun acc c =>
    if c = "" ∨ c = "." then acc
    else if c = ".." then
      (if acc ≠ [] ∧ acc.getLast? ≠ some ".." then acc.dropLast
       else if isAbs then acc
       else acc ++ [".."])
    else acc ++ [c]) []

/-- Model of `os.path.normpath` (the exactly-two-leading-slashes special case
is not modeled). -/
def pyNormpath (p : String) : String :=
  if p = "" then "."
  else
    let comps := normComps (pyIsAbs p) ((splitOnChar '/' p.data).map (fun l => ((⟨l⟩ : String))))
    let body := joinSlash comps
    if pyIsAbs p then (if body = "" then "/" else "/" ++ body)
    else (if body = "" then "." else body)

/-- Model of Python `str.startswith`. -/
def pyStartsWith (s pre : String) : Bool := pre.data.isPrefixOf s.data

def hexVal? (c : Char) : Option Nat :=
  if 48 ≤ c.toNat && c.toNat ≤ 57 then some (c.toNat - 48)
  else if 97 ≤ c.toNat && c.toNat ≤ 102 then some (c.toNat - 87)
  else if 65 ≤ c.toNat && c.toNat ≤ 70 then some (c.toNat - 55)
  else Option.none

/-- Percent-decoding of `urllib.parse.unquote` at the byte/ASCII level. -/
def unquoteL : List Char → List Char
  | [] => []
  | '%' :: a :: b :: rest =>
    (match hexVal? a, hexVal? b with
     | some x, some y => Char.ofNat (16 * x + y) :: unquoteL rest
     | _, _ => '%' :: unquoteL (a :: b :: rest))
  | c :: rest => c :: unquoteL rest

def pyUnquote (s : String) : String := ⟨unquoteL s.data⟩

def isSchemeChar (c : Char) : Bool :=
  (65 ≤ c.toNat && c.toNat ≤ 90) || (97 ≤ c.toNat && c.toNat ≤ 122) ||
  (48 ≤ c.toNat && c.toNat ≤ 57) || c = '+' || c = '-' || c = '.'

/-- Model of `urllib.parse.urlparse` restricted to the `(netloc, path)` fields
the code reads; query and fragment are split off, parameter splitting of the
last path segment is not modeled. -/
def pyUrlparse (s : String) : String × String :=
  let l := s.data
  let pre := l.takeWhile (fun c => c ≠ ':')
  let hasColon := !(l.dropWhile (fun c => c ≠ ':')).isEmpty
  let rest :=
    if hasColon && !pre.isEmpty && pre.all isSchemeChar
    then (l.dropWhile (fun c => c ≠ ':')).tail
    else l
  if rest.take 2 = ['/', '/'] then
    let body := rest.drop 2
    let netloc := body.takeWhile (fun c => c ≠ '/' && c ≠ '?' && c ≠ '#')
    let path := (body.dropWhile (fun c => c ≠ '/' && c ≠ '?' && c ≠ '#')).takeWhile
      (fun c => c ≠ '?' && c ≠ '#')
    (((⟨netloc⟩ : String)), ((⟨path⟩ : String)))
  else
    ((("" : String)), ((⟨rest.takeWhile (fun c => c ≠ '?' && c ≠ '#')⟩ : String)))

/-- Embedding of `file_url_to_local_path` (src/px/config.py lines 140-148);
when no branch matches, the Python function falls off the end and returns
`None`. -/
def file_url_to_local_path (file_url : String) : Option String :=
  if pyStartsWith (pyUnquote (pyUrlparse file_url).2) "/" ∧
      ¬ pyStartsWith (pyUnquote (pyUrlparse file_url).2) "//" then
    (if (pyUrlparse file_url).1.length = 2 ∧ (pyUrlparse file_url).1.data.get? 1 = some ':' then
      some ((pyUrlparse file_url).1 ++ pyUnquote (pyUrlparse file_url).2)
     else some ("C:" ++ pyUnquote (pyUrlparse file_url).2))
  else if (pyUnquote (pyUrlparse file_url).2).length > 2 ∧
      (pyUnquote (pyUrlparse file_url).2).data.get? 1 = some ':' then
    some (pyUnquote (pyUrlparse file_url).2)
  else Option.none

/-! ## Runtime state and per-field setters (`class State`, src/px/config.py) -/

/-- Runtime state fields of `State` touched by the configuration code. -/
structure PxState where
  gateway : Bool := false
  hostonly : Bool := false
  listen : Option (List String) := Option.none
  noproxy : String := ""
  pac : String := ""
  useragent : String := ""
  username : String := ""
  auth : String := "ANY"
  allow : AllowRules := ⟨["*.*.*.*"]⟩
  idle : PyVal := .int 30
  socktimeout : PyVal := .float 20
  proxyreload : PyVal := .int 60
  location : PyVal := .int 0
  debug : Option DebugHandle := Option.none
  test : PyVal := .none
deriving DecidableEq

/-- Embedding of `State.set_pac` (lines 319-346).  `E.fs` models
`os.path.exists`; passing the `None` result of `file_url_to_local_path` to
`os.path.exists` raises an uncaught `TypeError`. -/
def set_pac (E : Env) (pac : String) (st : PxState) : Except PxErr PxState :=
  if pac = "" then .ok st
  else if pyStartsWith pac "http" then .ok { st with pac := pac }
  else if pyStartsWith pac "file" then
    (match file_url_to_local_path pac with
     | some p =>
       if E.fs p then .ok { st with pac := p }
       else .error (.exit ("Unsupported PAC location or file not found: " ++ p))
     | Option.none => .error .typeError)
  else
    if E.fs (if pyIsAbs pac then pac else pyNormpath (pyJoin E.scriptDir pac)) then
      .ok { st with pac := (if pyIsAbs pac then pac else pyNormpath (pyJoin E.scriptDir pac)) }
    else
      .error (.exit ("Unsupported PAC location or file not found: " ++
        (if pyIsAbs pac then pac else pyNormpath (pyJoin E.scriptDir pac))))

/-- Embedding of `State.set_listen` (lines 348-358): blank means loopback
only; otherwise split on commas, strip, and keep nonempty unseen entries in
order. -/
def set_listen (listen : String) : List String :=
  if listen.data.length = 0 then ["127.0.0.1"]
  else
    (splitOnChar ',' listen.data).foldl (fun acc intf =>
      let clean : String := ⟨stripL intf⟩
      if clean.data.length ≠ 0 ∧ clean ∉ acc then acc ++ [clean] else acc) []

def set_gateway (v : PyVal) (st : PxState) : PxState := { st with gateway := pyEqOne v }

def set_hostonly (v : PyVal) (st : PxState) : PxState := { st with hostonly := pyEqOne v }

def set_allow (v : String) (st : PxState) : PxState := { st with allow := parse_noproxy v }

def set_noproxy (v : String) (st : PxState) : PxState := { st with noproxy := v }

def set_useragent (v : String) (st : PxState) : PxState := { st with useragent := v }

def set_username (v : String) (st : PxState) : PxState := { st with username := v }

/-- Embedding of `State.set_auth` (lines 398-405); the `mcurl.getauth`
validity check is modelled from the spec (an unsupported scheme is a fatal
misconfiguration). -/
def set_auth (E : Env) (v : String) (st : PxState) : Except PxErr PxState :=
  let auth := if v.data.length = 0 then "ANY" else v
  if E.authOk auth then .ok { st with auth := auth }
  else .error (.exit ("Unsupported auth scheme: " ++ auth))

def set_idle (v : PyVal) (st : PxState) : PxState := { st with idle := v }

/-- `socket.setdefaulttimeout` is an external side effect, not modeled. -/
def set_socktimeout (v : PyVal) (st : PxState) : PxState := { st with socktimeout := v }

def set_proxyreload (v : PyVal) (st : PxState) : PxState := { st with proxyreload := v }

def set_test (v : PyVal) (st : PxState) : PxState := { st with test := v }

/-- Target resolved by `get_logfile` (lines 91-120). -/
inductive LogTarget where
  | stdoutTarget
  | fileTarget (path : String)
deriving DecidableEq

/-- Embedding of `get_logfile`.  Location codes: 1 install directory, 2
working directory, 3 unique log name in the working directory, 4 stdout,
anything else no logging.  The `time.time()` component of the unique name is
the environment's `timeStr`. -/
def get_logfile (E : Env) (location : PyVal) : Option LogTarget :=
  let name := if E.argv.contains "--quit" then "quit" else E.procName
  if location = .int 1 then some (.fileTarget (pyJoin E.scriptDir ("debug-" ++ name ++ ".log")))
  else if location = .int 2 then some (.fileTarget (pyJoin E.cwd ("debug-" ++ name ++ ".log")))
  else if location = .int 3 then
    let name2 := match E.argv.find? (fun a => pyStartsWith a "--port=") with
      | some arg => arg.drop 7 ++ "-" ++ name
      | Option.none => name
    some (.fileTarget (pyJoin E.cwd ("debug-" ++ (name2 ++ "-" ++ E.timeStr) ++ ".log")))
  else if location = .int 4 then some .stdoutTarget
  else Option.none

/-- Embedding of `State.set_debug` (lines 407-418): a no-op whenever a
logger handle is already attached; otherwise resolves a target and attaches
the handle, recording the location code. -/
def set_debug (E : Env) (location : PyVal) (st : PxState) : PxState :=
  if st.debug.isSome then st
  else
    match get_logfile E location with
    | Option.none => st
    | some .stdoutTarget => { st with location := location, debug := some .stdoutDebug }
    | some (.fileTarget f) => { st with location := location, debug := some (.fileDebug f) }

/-! ## Typed field initializers and the resolution passes -/

/-- The `State.callbacks` dictionary (lines 301-317). -/
inductive Callback where
  | pacCb | listenCb | gatewayCb | hostonlyCb | allowCb | noproxyCb
  | useragentCb | usernameCb | authCb | logCb | idleCb | socktimeoutCb
  | proxyreloadCb | testCb
deriving DecidableEq

def callbacks : String → Option Callback
  | "pac" => some .pacCb
  | "listen" => some .listenCb
  | "gateway" => some .gatewayCb
  | "hostonly" => some .hostonlyCb
  | "allow" => some .allowCb
  | "noproxy" => some .noproxyCb
  | "useragent" => some .useragentCb
  | "username" => some .usernameCb
  | "auth" => some .authCb
  | "log" => some .logCb
  | "idle" => some .idleCb
  | "socktimeout" => some .socktimeoutCb
  | "proxyreload" => some .proxyreloadCb
  | "test" => some .testCb
  | _ => Option.none

/-- Invoking a callback with the dynamically typed resolved value.  The
string-typed setters require a `str` argument; any other value would raise
in Python, modeled as `typeError`. -/
def applyCallback (E : Env) (cb : Callback) (v : PyVal) (st : PxState) : Except PxErr PxState :=
  match cb, v with
  | .pacCb, .str s => set_pac E s st
  | .pacCb, _ => .error .typeError
  | .listenCb, .str s => .ok { st with listen := some (set_listen s) }
  | .listenCb, _ => .error .typeError
  | .gatewayCb, _ => .ok (set_gateway v st)
  | .hostonlyCb, _ => .ok (set_hostonly v st)
  | .allowCb, .str s => .ok (set_allow s st)
  | .allowCb, _ => .error .typeError
  | .noproxyCb, .str s => .ok (set_noproxy s st)
  | .noproxyCb, _ => .error .typeError
  | .useragentCb, .str s => .ok (set_useragent s st)
  | .useragentCb, _ => .error .typeError
  | .usernameCb, .str s => .ok (set_username s st)
  | .usernameCb, _ => .error .typeError
  | .authCb, .str s => set_auth E s st
  | .authCb, _ => .error .typeError
  | .logCb, _ => .ok (set_debug E v st)
  | .idleCb, _ => .ok (set_idle v st)
  | .socktimeoutCb, _ => .ok (set_socktimeout v st)
  | .proxyreloadCb, _ => .ok (set_proxyreload v st)
  | .testCb, _ => .ok (set_test v st)

def applyCallback? (E : Env) (cb : Option Callback) (v : PyVal) (st : PxState) :
    Except PxErr PxState :=
  match cb with
  | Option.none => .ok st
  | some c => applyCallback E c v st

/-- Result of a resolution step: runtime state, canonical store, and the
validation messages printed so far. -/
structure CfgRes where
  state : PxState
  store : Store
  errors : List String
deriving DecidableEq

/-- Candidate value before coercion: with `override` the supplied value,
otherwise the stored value (stripped) when present, else the supplied
default (the `configparser.NoOptionError` path). -/
def candidateOf (sec name : String) (d : PyVal) (override : Bool) (st : Store) : PyVal :=
  if override then d
  else
    match st.get? sec name with
    | some s => .str (pyStrip s)
    | Option.none => d

/-- `int(val)` with the `ValueError` fallback of `cfg_int_init`; the flag
records whether the validation error was reported. -/
def intCoerced (c : PyVal) : PyVal × Bool :=
  match pyToInt c with
  | some n => (.int n, false)
  | Option.none => (c, true)

def floatCoerced (c : PyVal) : PyVal × Bool :=
  match pyToFloat c with
  | some q => (.float q, false)
  | Option.none => (c, true)

/-- Embedding of `State.cfg_int_init` (lines 435-451): read or take the
candidate, coerce to int (reporting a validation error on failure and
keeping the unconverted value), always write the string form back, then
invoke the callback.  `int(None)` raises an uncaught `TypeError`. -/
def cfg_int_init (E : Env) (sec name : String) (d : PyVal) (cb : Option Callback)
    (override : Bool) (r : CfgRes) : Except PxErr CfgRes :=
  if candidateOf sec name d override r.store = .none then .error .typeError
  else
    match applyCallback? E cb (intCoerced (candidateOf sec name d override r.store)).1 r.state with
    | .ok st =>
      .ok ⟨st,
        r.store.set sec name (pyStr (intCoerced (candidateOf sec name d override r.store)).1),
        if (intCoerced (candidateOf sec name d override r.store)).2 then
          r.errors ++ ["Invalid integer value for " ++ sec ++ ":" ++ name]
        else r.errors⟩
    | .error e => .error e

/-- Embedding of `State.cfg_float_init` (lines 453-469). -/
def cfg_float_init (E : Env) (sec name : String) (d : PyVal) (cb : Option Callback)
    (override : Bool) (r : CfgRes) : Except PxErr CfgRes :=
  if candidateOf sec name d override r.store = .none then .error .typeError
  else
    match applyCallback? E cb (floatCoerced (candidateOf sec name d override r.store)).1 r.state with
    | .ok st =>
      .ok ⟨st,
        r.store.set sec name (pyStr (floatCoerced (candidateOf sec name d override r.store)).1),
        if (floatCoerced (candidateOf sec name d override r.store)).2 then
          r.errors ++ ["Invalid float value for " ++ sec ++ ":" ++ name]
        else r.errors⟩
    | .error e => .error e

/-- Embedding of `State.cfg_str_init` (lines 471-482); `configparser.set`
requires a string value (`TypeError` otherwise). -/
def cfg_str_init (E : Env) (sec name : String) (d : PyVal) (cb : Option Callback)
    (override : Bool) (r : CfgRes) : Except PxErr CfgRes :=
  match candidateOf sec name d override r.store with
  | .str s =>
    (match applyCallback? E cb (.str s) r.state with
     | .ok st => .ok ⟨st, r.store.set sec name s, r.errors⟩
     | .error e => .error e)
  | _ => .error .typeError

def strKeys : List String :=
  ["server", "pac", "pac_encoding", "listen", "allow", "noproxy", "useragent", "username", "auth"]

def proxyIntKeys : List String := ["port", "gateway", "hostonly"]

def settingsIntKeys : List String := ["workers", "threads", "idle", "proxyreload", "foreground", "log"]

/-- Embedding of `State.cfg_init` (lines 484-501): route each key to its
section and typed initializer; `test` only invokes its callback; unknown
names are ignored. -/
def cfg_init (E : Env) (name : String) (v : PyVal) (override : Bool) (r : CfgRes) :
    Except PxErr CfgRes :=
  if name ∈ strKeys then cfg_str_init E "proxy" name v (callbacks name) override r
  else if name ∈ proxyIntKeys then cfg_int_init E "proxy" name v (callbacks name) override r
  else if name ∈ settingsIntKeys then cfg_int_init E "settings" name v (callbacks name) override r
  else if name = "socktimeout" then cfg_float_init E "settings" name v (callbacks name) override r
  else if name = "test" ∧ (callbacks name).isSome then
    (match applyCallback? E (callbacks name) v r.state with
     | .ok st => .ok ⟨st, r.store, r.errors⟩
     | .error e => .error e)
  else .ok r

/-- The `DEFAULTS` table (lines 227-249). -/
def DEFAULTS : List (String × PyVal) :=
  [("server", .str ""), ("pac", .str ""), ("pac_encoding", .str "utf-8"),
   ("port", .str "3128"), ("listen", .str "127.0.0.1"), ("gateway", .str "0"),
   ("hostonly", .str "0"), ("allow", .str "*.*.*.*"), ("noproxy", .str ""),
   ("useragent", .str ""), ("username", .str ""), ("auth", .str ""),
   ("workers", .str "2"), ("threads", .str "32"), ("idle", .str "30"),
   ("socktimeout", .str "20.0"), ("proxyreload", .str "60"),
   ("foreground", .str "0"), ("log", .str "0"), ("test", .none)]

/-- One resolution pass: `cfg_init` over a list of (key, value) pairs. -/
def runPass (E : Env) (override : Bool) : List (String × PyVal) → CfgRes → Except PxErr CfgRes
  | [], r => .ok r
  | (n, v) :: rest, r =>
    match cfg_init E n v override r with
    | .ok r2 => runPass E override rest r2
    | .error e => .error e

/-- Embedding of the resolution passes of `State.parse_config`
(lines 626-640): the unconditional `log` pre-initialization with
`override=True` from the current location, the defaults pass reading
through the file-backed store (`override=False`), then the environment and
CLI passes with `override=True`, in that order. -/
def resolve_passes (E : Env) (fileStore : Store) (envL flagsL : List (String × String))
    (s0 : PxState) : Except PxErr CfgRes :=
  match cfg_int_init E "settings" "log" (.str (pyStr s0.location)) Option.none true
      ⟨s0, fileStore, []⟩ with
  | .error e => .error e
  | .ok r1 =>
    match runPass E false DEFAULTS r1 with
    | .error e => .error e
    | .ok r2 =>
      match runPass E true (envL.map (fun p => (p.1, PyVal.str p.2))) r2 with
      | .error e => .error e
      | .ok r3 => runPass E true (flagsL.map (fun p => (p.1, PyVal.str p.2))) r3

/-- The host-only part of the propagation (lines 656-667), applied after the
gateway part: force `listen` to all interfaces and, when gateway mode is off
or the stored `allow` is still a wide-open default, clear the allow rules
through `cfg_init("allow", "", True)`. -/
def propagationHostonly (E : Env) (allow : String) (r1 : CfgRes) : Except PxErr CfgRes :=
  if r1.state.hostonly then
    (if r1.state.gateway = false ∨
        (r1.state.gateway = true ∧ (allow = "*.*.*.*" ∨ allow = "0.0.0.0/0")) then
      cfg_init E "allow" (.str "") true
        ⟨{ r1.state with listen := some [""] }, r1.store.set "proxy" "listen" "", r1.errors⟩
    else
      .ok ⟨{ r1.state with listen := some [""] }, r1.store.set "proxy" "listen" "", r1.errors⟩)
  else .ok r1

/-- Embedding of the derived-setting propagation of `State.parse_config`
(lines 645-667): the stored `allow` value is read first; gateway mode forces
`listen` to all interfaces; then the host-only part runs. -/
def propagation (E : Env) (r : CfgRes) : Except PxErr CfgRes :=
  match r.store.get? "proxy" "allow" with
  | Option.none => .error .noOption
  | some allow =>
    propagationHostonly E allow
      (if r.state.gateway then
        ⟨{ r.state with listen := some [""] }, r.store.set "proxy" "listen" "", r.errors⟩
      else r)

/-- Resolution passes followed by derived-setting propagation. -/
def parse_config_core (E : Env) (fileStore : Store) (envL flagsL : List (String × String))
    (s0 : PxState) : Except PxErr CfgRes :=
  match resolve_passes E fileStore envL flagsL s0 with
  | .error e => .error e
  | .ok r => propagation E r

/-! ## Proxy source selection and refresh throttle -/

/-- Proxy source variants.  Modelled from the spec: the `wproxy` collaborator
module (not under src/) exposes `MODE_CONFIG` for an explicit server list,
`MODE_CONFIG_PAC` for a PAC location, and OS auto-detection as the default
mode; an auto-detect snapshot identifies the result of one OS query. -/
inductive Wproxy where
  | explicitServers (servers : List String)
  | pacSource (pac : String) (encoding : String)
  | autoDetect (snapshot : Nat)
deriving DecidableEq

/-- The `mode` attribute of a `Wproxy` object. -/
inductive WMode where
  | config | configPac | auto
deriving DecidableEq

def Wproxy.mode : Wproxy → WMode
  | .explicitServers _ => .config
  | .pacSource _ _ => .configPac
  | .autoDetect _ => .auto

/-- State touched by `State.reload_proxy`; times are exact rationals. -/
structure RState where
  wproxy : Wproxy
  proxy_last_reload : Option Rat
  proxyreload : Rat
  noproxy : String
deriving DecidableEq

/-- Embedding of the startup proxy selection of `State.parse_config`
(lines 692-700): a non-empty parsed server list selects `MODE_CONFIG`, else
a non-empty PAC location selects `MODE_CONFIG_PAC`, else auto-detection and
`proxy_last_reload` is stamped. -/
def startup_wproxy (servers : List String) (pacLoc pacEnc : String) (det : Nat) (now : Rat) :
    Wproxy × Option Rat :=
  if servers ≠ [] then (.explicitServers servers, Option.none)
  else if pacLoc ≠ "" then (.pacSource pacLoc pacEnc, Option.none)
  else (.autoDetect det, some now)

/-- Embedding of `State.reload_proxy` (lines 705-726).  `tCheck` is the
`time.time()` read by the throttle check, `tStamp` the one stored after a
re-detection; the state lock serializes the body, so one call is one atomic
step.  `det` is the auto-detection result the OS query returns now. -/
def reload_proxy (tCheck tStamp : Rat) (det : Nat) (s : RState) : RState :=
  if s.wproxy.mode = .config ∨ s.wproxy.mode = .configPac then s
  else
    match s.proxy_last_reload with
    | some last =>
      if tCheck - last < s.proxyreload then s
      else { s with wproxy := .autoDetect det, proxy_last_reload := some tStamp }
    | Option.none => { s with wproxy := .autoDetect det, proxy_last_reload := some tStamp }

/-- Whether a call whose throttle check runs at `tc` performs a refresh. -/
def didRefresh (tc : Rat) (s : RState) : Bool :=
  s.wproxy.mode = .auto &&
    (match s.proxy_last_reload with
     | some last => s.proxyreload ≤ tc - last
     | Option.none => true)

/-- Serialized execution of a sequence of `reload_proxy` calls. -/
def runCalls : List (Rat × Rat × Nat) → RState → RState
  | [], s => s
  | (tc, ts, d) :: rest, s => runCalls rest (reload_proxy tc ts d s)

/-- The stamp times of the calls that performed a refresh. -/
def refreshStamps : List (Rat × Rat × Nat) → RState → List Rat
  | [], _ => []
  | (tc, ts, d) :: rest, s =>
    if didRefresh tc s then ts :: refreshStamps rest (reload_proxy tc ts d s)
    else refreshStamps rest (reload_proxy tc ts d s)

/-- Well-formed serialized call sequence starting no earlier than `t`: each
critical section's check time precedes its stamp time, and the sections are
ordered (the state lock serializes them). -/
def wfCalls : Rat → List (Rat × Rat × Nat) → Prop
  | _, [] => True
  | t, (tc, ts, _) :: rest => t ≤ tc ∧ tc ≤ ts ∧ wfCalls ts rest

/-! ## Claim C7 and C10: listen-address parsing -/

/-- First-occurrence de-duplication. -/
def dedupeKeepFirst (l : List String) : List String :=
  l.foldl (fun acc x => if x ∉ acc then acc ++ [x] else acc) []

/-- The general description of C7 taken literally: split on commas, trim each
piece, drop duplicates preserving first-occurrence order, with no dropping of
empty pieces. -/
def listenClaimed (s : String) : List String :=
  dedupeKeepFirst ((splitOnChar ',' s.data).map (fun p => ((⟨stripL p⟩ : String))))

/-- The amended description: split on commas, trim each piece, drop the
pieces that are empty after trimming, drop duplicates preserving
first-occurrence order. -/
def listenAmended (s : String) : List String :=
  dedupeKeepFirst
    (((splitOnChar ',' s.data).map (fun p => ((⟨stripL p⟩ : String)))).filter (fun x => x ≠ ""))

theorem string_eq_empty_iff (s : String) : s = "" ↔ s.data = [] := by
  constructor
  · intro h; rw [h]
  · intro h
    cases s with
    | mk d => cases h; rfl

theorem listen_fold_eq :
    ∀ (pieces : List (List Char)) (acc : List String),
      pieces.foldl (fun acc intf =>
        let clean : String := ⟨stripL intf⟩
        if clean.data.length ≠ 0 ∧ clean ∉ acc then acc ++ [clean] else acc) acc =
      ((pieces.map (fun p => ((⟨stripL p⟩ : String)))).filter (fun x => x ≠ "")).foldl
        (fun acc x => if x ∉ acc then acc ++ [x] else acc) acc := by
  intro pieces
  induction pieces with
  | nil => intro acc; rfl
  | cons p rest ih =>
    intro acc
    rw [List.foldl_cons, List.map_cons, List.filter_cons]
    by_cases hemp : ((⟨stripL p⟩ : String) : String) = ""
    · have hlen : ((⟨stripL p⟩ : String) : String).data.length = 0 := by
        rw [(string_eq_empty_iff _).mp hemp]
        rfl
      simp only
      rw [if_neg (by simp [hlen])]
      rw [if_neg (by simp [hemp])]
      exact ih acc
    · have hlen : ((⟨stripL p⟩ : String) : String).data.length ≠ 0 := by
        intro h0
        apply hemp
        rw [string_eq_empty_iff]
        exact List.length_eq_zero.mp h0
      simp only
      rw [if_pos (by simp [hemp] : (decide ¬((⟨stripL p⟩ : String) : String) = "") = true)]
      rw [List.foldl_cons]
      by_cases hmem : ((⟨stripL p⟩ : String) : String) ∈ acc
      · rw [if_neg (by simp [hmem]), if_neg (by simp [hmem])]
        exact ih acc
      · rw [if_pos (by simp [hlen, hmem]), if_pos (by simp [hmem])]
        exact ih (acc ++ [(⟨stripL p⟩ : String)])

/-- C7 counterexample: the claim describes a non-empty input as "split on
commas, trimmed, duplicates dropped", but on "a,,b" the code also drops the
piece that is empty after trimming, which is not a duplicate. -/
theorem C7_counterexample :
    set_listen "a,,b" = ["a", "b"] ∧ listenClaimed "a,,b" = ["a", "", "b"] ∧
    set_listen "a,,b" ≠ listenClaimed "a,,b" := by
  refine ⟨by decide, by decide, by decide⟩

/-- C7 (amended): the empty string yields exactly ["127.0.0.1"]; the input
"eth0, eth0,eth1" yields exactly ["eth0","eth1"]; in general a non-empty
input is split on commas, each piece whitespace-trimmed, pieces that are
empty after trimming dropped, and duplicates dropped while preserving
first-occurrence order. -/
theorem C7_listen_amended :
    set_listen "" = ["127.0.0.1"] ∧
    set_listen "eth0, eth0,eth1" = ["eth0", "eth1"] ∧
    ∀ s : String, s ≠ "" → set_listen s = listenAmended s := by
  refine ⟨by decide, by decide, ?_⟩
  intro s hs
  unfold set_listen
  rw [if_neg (by
    intro h0
    exact hs ((string_eq_empty_iff s).mpr (List.length_eq_zero.mp h0)))]
  exact listen_fold_eq _ []

/-- C7 witness: the amended general law evaluated at "a,,b". -/
theorem C7_witness :
    set_listen "a,,b" = listenAmended "a,,b" ∧ listenAmended "a,,b" = ["a", "b"] :=
  ⟨C7_listen_amended.2.2 "a,,b" (by decide), by decide⟩

/-- C10: for a non-empty input all of whose comma-separated pieces are empty
after trimming, set_listen yields the empty list; the loopback fallback
applies exactly to the length-zero input. -/
theorem C10_listen_empty_pieces :
    set_listen "" = ["127.0.0.1"] ∧
    (∀ s : String, s ≠ "" → (∀ p ∈ splitOnChar ',' s.data, stripL p = []) →
      set_listen s = []) := by
  refine ⟨by decide, ?_⟩
  intro s hs hp
  unfold set_listen
  rw [if_neg (by
    intro h0
    exact hs ((string_eq_empty_iff s).mpr (List.length_eq_zero.mp h0)))]
  have hgen : ∀ (pieces : List (List Char)) (acc : List String),
      (∀ p ∈ pieces, stripL p = []) →
      pieces.foldl (fun acc intf =>
        let clean : String := ⟨stripL intf⟩
        if clean.data.length ≠ 0 ∧ clean ∉ acc then acc ++ [clean] else acc) acc = acc := by
    intro pieces
    induction pieces with
    | nil => intro acc _; rfl
    | cons p rest ih =>
      intro acc hall
      rw [List.foldl_cons]
      simp only
      rw [if_neg (by
        rw [hall p (List.mem_cons_self p rest)]
        simp)]
      exact ih acc fun x hx => hall x (List.mem_cons_of_mem p hx)
  exact hgen _ [] hp

/-- C10 witness: the law evaluated at ",". -/
theorem C10_witness : set_listen "," = [] ∧ ("," : String) ≠ "" :=
  ⟨C10_listen_empty_pieces.2 "," (by decide) (by decide), by decide⟩

/-! ## Claim C8: logger setter is first-writer-wins -/

/-- C8: once a debug handle is attached, every later invocation of set_debug
is a no-op (state, handle and location all unchanged), for every sequence of
invocations, every environment and every location code. -/
theorem C8_logger_first_writer_wins :
    ∀ (st : PxState) (d : DebugHandle), st.debug = some d →
      (∀ (E2 : Env) (loc : PyVal), set_debug E2 loc st = st) ∧
      (∀ calls : List (Env × PyVal),
        calls.foldl (fun s c => set_debug c.1 c.2 s) st = st) := by
  intro st d hd
  have hstep : ∀ (E2 : Env) (loc : PyVal), set_debug E2 loc st = st := by
    intro E2 loc
    unfold set_debug
    rw [if_pos (by rw [hd]; rfl)]
  refine ⟨hstep, ?_⟩
  intro calls
  induction calls with
  | nil => rfl
  | cons c rest ih =>
    rw [List.foldl_cons, hstep c.1 c.2]
    exact ih

/-- A concrete environment for witnesses. -/
def Ew : Env := ⟨fun _ => false, "/opt/px", "/cwd", "px", [], "1700000000.0", fun _ => true⟩

def stDebugW : PxState := { debug := some DebugHandle.stdoutDebug }

/-- C8 witness: a state with an attached stdout handle is untouched by one
more invocation and by a two-call sequence. -/
theorem C8_witness :
    set_debug Ew (.int 3) stDebugW = stDebugW ∧
    ([(Ew, PyVal.int 1), (Ew, PyVal.int 4)].foldl
      (fun s c => set_debug c.1 c.2 s) stDebugW) = stDebugW := by
  have h := C8_logger_first_writer_wins stDebugW .stdoutDebug rfl
  exact ⟨h.1 Ew (.int 3), h.2 [(Ew, PyVal.int 1), (Ew, PyVal.int 4)]⟩

/-! ## Claims C6 and C9: PAC location handling -/

theorem pyStartsWith_file_ne_empty {u : String} (h : pyStartsWith u "file" = true) :
    u ≠ "" := by
  intro he
  subst he
  exact absurd h (by decide)

theorem pyStartsWith_file_not_http {u : String} (h : pyStartsWith u "file" = true) :
    pyStartsWith u "http" = false := by
  unfold pyStartsWith at h ⊢
  rw [List.isPrefixOf_iff_prefix] at h
  obtain ⟨t, ht⟩ := h
  rw [← ht]
  simp [show ("file" : String).data = ['f', 'i', 'l', 'e'] from rfl,
    show ("http" : String).data = ['h', 't', 't', 'p'] from rfl, List.isPrefixOf]

/-- C9: for a file URL whose unquoted path neither starts with a single
slash nor has a drive-letter colon as its second character,
`file_url_to_local_path` returns no path, and `set_pac` then passes that
`None` to the `os.path.exists` check (an uncaught `TypeError`) instead of
reaching the documented diagnostic-and-exit branch with a path string. -/
theorem C9_pac_none_to_exists :
    ∀ (E2 : Env) (st : PxState) (url : String),
      pyStartsWith url "file" = true →
      ¬(pyStartsWith (pyUnquote (pyUrlparse url).2) "/" = true ∧
        ¬ pyStartsWith (pyUnquote (pyUrlparse url).2) "//" = true) →
      ¬((pyUnquote (pyUrlparse url).2).length > 2 ∧
        (pyUnquote (pyUrlparse url).2).data.get? 1 = some ':') →
      file_url_to_local_path url = Option.none ∧
      set_pac E2 url st = .error .typeError ∧
      (∀ msg, set_pac E2 url st ≠ .error (.exit msg)) := by
  intro E2 st url hfile hc1 hc2
  have hnone : file_url_to_local_path url = Option.none := by
    unfold file_url_to_local_path
    rw [if_neg hc1, if_neg hc2]
  have hset : set_pac E2 url st = .error .typeError := by
    unfold set_pac
    rw [if_neg (pyStartsWith_file_ne_empty hfile),
        if_neg (by rw [pyStartsWith_file_not_http hfile]; simp),
        if_pos hfile, hnone]
  refine ⟨hnone, hset, ?_⟩
  intro msg hcontra
  rw [hset] at hcontra
  simp at hcontra

/-- C9 witness: "file://host" has empty path after the host, hitting the
fall-through. -/
theorem C9_witness :
    file_url_to_local_path "file://host" = Option.none ∧
    set_pac Ew "file://host" {} = .error .typeError := by
  have h := C9_pac_none_to_exists Ew {} "file://host" (by decide) (by decide) (by decide)
  exact ⟨h.1, h.2.1⟩

/-- C6: a non-empty PAC argument that is a relative local path resolves
against the install (script) directory -- stored when the resolved path
exists, diagnostic message and process exit when it does not -- and a
file:// URL whose two-character host has ':' second resolves to the
drive-rooted local path (drive prepended to the URL path). -/
theorem C6_pac_paths :
    (∀ (E2 : Env) (st : PxState) (pac : String),
      pac ≠ "" → pyStartsWith pac "http" = false → pyStartsWith pac "file" = false →
      pyIsAbs pac = false →
      (E2.fs (pyNormpath (pyJoin E2.scriptDir pac)) = false →
        set_pac E2 pac st =
          .error (.exit ("Unsupported PAC location or file not found: " ++
            pyNormpath (pyJoin E2.scriptDir pac)))) ∧
      (E2.fs (pyNormpath (pyJoin E2.scriptDir pac)) = true →
        set_pac E2 pac st = .ok { st with pac := pyNormpath (pyJoin E2.scriptDir pac) })) ∧
    (∀ url : String,
      pyStartsWith (pyUnquote (pyUrlparse url).2) "/" = true →
      pyStartsWith (pyUnquote (pyUrlparse url).2) "//" = false →
      (pyUrlparse url).1.length = 2 →
      (pyUrlparse url).1.data.get? 1 = some ':' →
      file_url_to_local_path url = some ((pyUrlparse url).1 ++ pyUnquote (pyUrlparse url).2)) := by
  constructor
  · intro E2 st pac hne hhttp hfile habs
    have hred : set_pac E2 pac st =
        (if E2.fs (pyNormpath (pyJoin E2.scriptDir pac)) then
          .ok { st with pac := pyNormpath (pyJoin E2.scriptDir pac) }
         else .error (.exit ("Unsupported PAC location or file not found: " ++
           pyNormpath (pyJoin E2.scriptDir pac)))) := by
      unfold set_pac
      rw [if_neg hne, if_neg (by rw [hhttp]; simp), if_neg (by rw [hfile]; simp)]
      rw [if_neg (show ¬ pyIsAbs pac = true by rw [habs]; simp)]
    constructor
    · intro hfs
      rw [hred, if_neg (by rw [hfs]; simp)]
    · intro hfs
      rw [hred, if_pos hfs]
  · intro url h1 h2 h3 h4
    unfold file_url_to_local_path
    rw [if_pos ⟨h1, by rw [h2]; simp⟩, if_pos ⟨h3, h4⟩]

def EwTrue : Env := ⟨fun _ => true, "/opt/px", "/cwd", "px", [], "1700000000.0", fun _ => true⟩

/-- C6 witness: relative path "nope.pac" against install dir "/opt/px" with
and without the file existing, and the drive-letter file URL. -/
theorem C6_witness :
    set_pac Ew "nope.pac" {} =
      .error (.exit ("Unsupported PAC location or file not found: " ++
        pyNormpath (pyJoin Ew.scriptDir "nope.pac"))) ∧
    pyNormpath (pyJoin Ew.scriptDir "nope.pac") = "/opt/px/nope.pac" ∧
    set_pac EwTrue "nope.pac" {} = .ok { ({} : PxState) with pac := pyNormpath (pyJoin EwTrue.scriptDir "nope.pac") } ∧
    file_url_to_local_path "file://c:/x.pac" =
      some ((pyUrlparse "file://c:/x.pac").1 ++ pyUnquote (pyUrlparse "file://c:/x.pac").2) ∧
    (pyUrlparse "file://c:/x.pac").1 ++ pyUnquote (pyUrlparse "file://c:/x.pac").2 = "c:/x.pac" := by
  refine ⟨?_, by decide, ?_, ?_, by decide⟩
  · exact (C6_pac_paths.1 Ew {} "nope.pac" (by decide) (by decide) (by decide) (by decide)).1 rfl
  · exact (C6_pac_paths.1 EwTrue {} "nope.pac" (by decide) (by decide) (by decide) (by decide)).2 rfl
  · exact C6_pac_paths.2 "file://c:/x.pac" (by decide) (by decide) (by decide) (by decide)

/-! ## Claims C2 and C3: proxy refresh throttle -/

theorem reload_proxy_config_id (tc ts : Rat) (det : Nat) (s : RState)
    (h : s.wproxy.mode = .config ∨ s.wproxy.mode = .configPac) :
    reload_proxy tc ts det s = s := by
  unfold reload_proxy
  rw [if_pos h]

theorem reload_proxy_skip (tc ts : Rat) (det : Nat) (s : RState) (l : Rat)
    (hm : s.wproxy.mode = .auto) (hl : s.proxy_last_reload = some l)
    (hlt : tc - l < s.proxyreload) : reload_proxy tc ts det s = s := by
  unfold reload_proxy
  rw [if_neg (by rw [hm]; decide), hl]
  simp only
  rw [if_pos hlt]

theorem reload_proxy_refresh (tc ts : Rat) (det : Nat) (s : RState) (l : Rat)
    (hm : s.wproxy.mode = .auto) (hl : s.proxy_last_reload = some l)
    (hge : ¬(tc - l < s.proxyreload)) :
    reload_proxy tc ts det s =
      { s with wproxy := .autoDetect det, proxy_last_reload := some ts } := by
  unfold reload_proxy
  rw [if_neg (by rw [hm]; decide), hl]
  simp only
  rw [if_neg hge]

theorem runCalls_config_id (calls : List (Rat × Rat × Nat)) (s : RState)
    (h : s.wproxy.mode = .config ∨ s.wproxy.mode = .configPac) :
    runCalls calls s = s := by
  induction calls with
  | nil => rfl
  | cons c rest ih =>
    obtain ⟨tc, ts, d⟩ := c
    show runCalls rest (reload_proxy tc ts d s) = s
    rw [reload_proxy_config_id tc ts d s h]
    exact ih

/-- C3: a proxy source selected as ExplicitServers (MODE_CONFIG) or
PacSource (MODE_CONFIG_PAC) at startup is left unchanged -- wproxy and
proxy_last_reload both -- by every later sequence of reload_proxy calls; and
whenever a reload_proxy call changes the state at all, the old source and
the new source are both AutoDetect. -/
theorem C3_config_sources_immutable :
    (∀ (servers : List String) (pacLoc pacEnc : String) (det0 : Nat) (now : Rat)
       (reloadIv : Rat) (npx : String) (calls : List (Rat × Rat × Nat)),
      (servers ≠ [] ∨ pacLoc ≠ "") →
      runCalls calls
        ⟨(startup_wproxy servers pacLoc pacEnc det0 now).1,
         (startup_wproxy servers pacLoc pacEnc det0 now).2, reloadIv, npx⟩ =
        ⟨(startup_wproxy servers pacLoc pacEnc det0 now).1,
         (startup_wproxy servers pacLoc pacEnc det0 now).2, reloadIv, npx⟩) ∧
    (∀ (tc ts : Rat) (det : Nat) (s : RState),
      reload_proxy tc ts det s ≠ s →
      s.wproxy.mode = .auto ∧ (reload_proxy tc ts det s).wproxy.mode = .auto) := by
  constructor
  · intro servers pacLoc pacEnc det0 now reloadIv npx calls hsel
    apply runCalls_config_id
    show ((startup_wproxy servers pacLoc pacEnc det0 now).1).mode = .config ∨
      ((startup_wproxy servers pacLoc pacEnc det0 now).1).mode = .configPac
    unfold startup_wproxy
    by_cases hs : servers ≠ []
    · rw [if_pos hs]; left; rfl
    · rw [if_neg hs]
      rcases hsel with h | h
      · exact absurd h hs
      · rw [if_pos h]; right; rfl
  · intro tc ts det s hne
    by_cases h : s.wproxy.mode = .config ∨ s.wproxy.mode = .configPac
    · exact absurd (reload_proxy_config_id tc ts det s h) hne
    · have hauto : s.wproxy.mode = .auto := by
        cases hm : s.wproxy.mode with
        | config => exact absurd (Or.inl hm) h
        | configPac => exact absurd (Or.inr hm) h
        | auto => rfl
      refine ⟨hauto, ?_⟩
      cases hl : s.proxy_last_reload with
      | none =>
        unfold reload_proxy
        rw [if_neg h, hl]
        rfl
      | some last =>
        by_cases hlt : tc - last < s.proxyreload
        · exact absurd (reload_proxy_skip tc ts det s last hauto hl hlt) hne
        · rw [reload_proxy_refresh tc ts det s last hauto hl hlt]
          rfl

theorem wfCalls_mono {t t2 : Rat} (h : t2 ≤ t) :
    ∀ {calls : List (Rat × Rat × Nat)}, wfCalls t calls → wfCalls t2 calls := by
  intro calls
  cases calls with
  | nil => intro; trivial
  | cons c rest =>
    obtain ⟨tc, ts, d⟩ := c
    rintro ⟨h1, h2, h3⟩
    exact ⟨le_trans h h1, h2, h3⟩

/-- C2: with an auto-detect source, a reload_proxy call within the
configured proxyreload interval leaves the state (cached source and
proxy_last_reload) unchanged; a call at or after the interval replaces the
source with the fresh auto-detection and stamps a time that is strictly
greater than the previous one whenever the interval is positive; and over
any serialized sequence of calls (the state lock serializes them),
consecutive refresh stamps are at least one interval apart -- no refresh
occurs more than once per interval. -/
theorem C2_reload_throttle :
    (∀ (s : RState) (tc ts : Rat) (det : Nat) (l : Rat),
      s.wproxy.mode = .auto → s.proxy_last_reload = some l →
      (tc - l < s.proxyreload → reload_proxy tc ts det s = s) ∧
      (s.proxyreload ≤ tc - l → tc ≤ ts →
        (reload_proxy tc ts det s).wproxy = .autoDetect det ∧
        (reload_proxy tc ts det s).proxy_last_reload = some ts ∧
        (0 < s.proxyreload → l < ts))) ∧
    (∀ (calls : List (Rat × Rat × Nat)) (s : RState) (l : Rat),
      s.wproxy.mode = .auto → s.proxy_last_reload = some l → wfCalls l calls →
      List.Chain' (fun a b => a + s.proxyreload ≤ b) (l :: refreshStamps calls s)) := by
  constructor
  · intro s tc ts det l hm hl
    constructor
    · intro hlt
      exact reload_proxy_skip tc ts det s l hm hl hlt
    · intro hge htcts
      rw [reload_proxy_refresh tc ts det s l hm hl (not_lt.mpr hge)]
      refine ⟨rfl, rfl, ?_⟩
      intro hpos
      have : l + s.proxyreload ≤ tc := by linarith
      linarith
  · intro calls
    induction calls with
    | nil =>
      intro s l _ _ _
      simp [refreshStamps]
    | cons c rest ih =>
      obtain ⟨tc, ts, d⟩ := c
      intro s l hm hl hwf
      obtain ⟨hltc, htcts, hwrest⟩ := hwf
      unfold refreshStamps
      by_cases hr : didRefresh tc s = true
      · rw [if_pos hr]
        have hge : s.proxyreload ≤ tc - l := by
          unfold didRefresh at hr
          rw [hm, hl] at hr
          simpa using hr
        rw [reload_proxy_refresh tc ts d s l hm hl (not_lt.mpr hge)]
        rw [List.chain'_cons]
        refine ⟨by linarith, ?_⟩
        exact ih { s with wproxy := .autoDetect d, proxy_last_reload := some ts } ts rfl rfl hwrest
      · rw [if_neg hr]
        have hlt : tc - l < s.proxyreload := by
          unfold didRefresh at hr
          rw [hm, hl] at hr
          simp at hr
          exact hr
        rw [reload_proxy_skip tc ts d s l hm hl hlt]
        exact ih s l hm hl (wfCalls_mono (le_trans hltc htcts) hwrest)

def rsW : RState := ⟨.autoDetect 0, some 0, 60, ""⟩

/-- C2 witness: with interval 60 and last stamp 0, a call at t=10 skips, a
call at t=70 refreshes with a strictly larger stamp, and over the two-call
trace the refresh stamps are an interval apart. -/
theorem C2_witness :
    reload_proxy 10 10 1 rsW = rsW ∧
    (reload_proxy 70 71 2 rsW).wproxy = .autoDetect 2 ∧
    (reload_proxy 70 71 2 rsW).proxy_last_reload = some 71 ∧
    ((0 : Rat)) < 71 ∧
    List.Chain' (fun a b => a + rsW.proxyreload ≤ b)
      (0 :: refreshStamps [(10, 10, 1), (70, 71, 2)] rsW) := by
  have h1 := (C2_reload_throttle.1 rsW 10 10 1 0 rfl rfl).1 (by norm_num [rsW])
  have h2 := (C2_reload_throttle.1 rsW 70 71 2 0 rfl rfl).2 (by norm_num [rsW]) (by norm_num)
  refine ⟨h1, h2.1, h2.2.1, h2.2.2 (by norm_num [rsW]), ?_⟩
  exact C2_reload_throttle.2 [(10, 10, 1), (70, 71, 2)] rsW 0 rfl rfl
    ⟨by norm_num, by norm_num, by norm_num, by norm_num, trivial⟩

/-- C3 witness: an explicit-servers source is untouched by two calls that
would refresh an auto-detect source. -/
theorem C3_witness :
    runCalls [(100, 101, 5), (1000, 1001, 6)]
      ⟨(startup_wproxy ["proxy:3128"] "" "utf-8" 0 0).1,
       (startup_wproxy ["proxy:3128"] "" "utf-8" 0 0).2, 60, ""⟩ =
      ⟨(startup_wproxy ["proxy:3128"] "" "utf-8" 0 0).1,
       (startup_wproxy ["proxy:3128"] "" "utf-8" 0 0).2, 60, ""⟩ :=
  C3_config_sources_immutable.1 ["proxy:3128"] "" "utf-8" 0 0 60 ""
    [(100, 101, 5), (1000, 1001, 6)] (Or.inl (by decide))

/-! ## Claim C4: host-only propagation -/

theorem cfg_init_allow_clear (E2 : Env) (r2 : CfgRes) :
    cfg_init E2 "allow" (.str "") true r2 =
      .ok ⟨{ r2.state with allow := ⟨[]⟩ }, r2.store.set "proxy" "allow" "", r2.errors⟩ := rfl

theorem propagationHostonly_spec (E2 : Env) (allow : String) (r1 : CfgRes)
    (hh : r1.state.hostonly = true) :
    ∃ r2, propagationHostonly E2 allow r1 = .ok r2 ∧
      r2.state.listen = some [""] ∧
      r2.store.get? "proxy" "listen" = some "" ∧
      ((r1.state.gateway = false ∨ allow = "*.*.*.*" ∨ allow = "0.0.0.0/0") →
        r2.state.allow = ⟨[]⟩ ∧ r2.store.get? "proxy" "allow" = some "") ∧
      (r1.state.gateway = true → allow ≠ "*.*.*.*" → allow ≠ "0.0.0.0/0" →
        r2.state.allow = r1.state.allow ∧
        r2.store.get? "proxy" "allow" = r1.store.get? "proxy" "allow") := by
  unfold propagationHostonly
  rw [if_pos hh]
  by_cases hC : r1.state.gateway = false ∨
      (r1.state.gateway = true ∧ (allow = "*.*.*.*" ∨ allow = "0.0.0.0/0"))
  · rw [if_pos hC, cfg_init_allow_clear]
    refine ⟨_, rfl, rfl, ?_, ?_, ?_⟩
    · show ((r1.store.set "proxy" "listen" "").set "proxy" "allow" "").get? "proxy" "listen"
        = some ""
      rw [Store.get?_set_other _ (by decide) _]
      exact Store.get?_set_self _ _ _ _
    · intro _
      exact ⟨rfl, Store.get?_set_self _ _ _ _⟩
    · intro hgt hna hnb
      exfalso
      rcases hC with h | ⟨_, h⟩
      · rw [hgt] at h; exact Bool.noConfusion h
      · rcases h with h | h
        · exact hna h
        · exact hnb h
  · rw [if_neg hC]
    refine ⟨_, rfl, rfl, ?_, ?_, ?_⟩
    · exact Store.get?_set_self _ _ _ _
    · intro hcase
      exfalso
      apply hC
      rcases hcase with h | h
      · exact Or.inl h
      · cases hgb : r1.state.gateway with
        | false => exact Or.inl rfl
        | true => exact Or.inr ⟨rfl, h⟩
    · intro _ _ _
      refine ⟨rfl, ?_⟩
      show ((r1.store.set "proxy" "listen" "")).get? "proxy" "allow"
        = r1.store.get? "proxy" "allow"
      exact Store.get?_set_other _ (by decide) _

/-- C4: after the four resolution passes, when host-only mode is enabled the
propagation forces listen to the all-interfaces value [""] in state and
store; if additionally gateway mode is disabled, or gateway mode is enabled
but the stored allow is still a wide-open default ("*.*.*.*" or
"0.0.0.0/0"), the allow rule-set is cleared entirely (and the stored value
emptied); with gateway enabled and a non-default allow, the allow rule-set
and its stored value are left untouched. -/
theorem C4_hostonly_propagation :
    ∀ (E2 : Env) (r : CfgRes) (a : String),
      r.store.get? "proxy" "allow" = some a →
      r.state.hostonly = true →
      ∃ r2, propagation E2 r = .ok r2 ∧
        r2.state.listen = some [""] ∧
        r2.store.get? "proxy" "listen" = some "" ∧
        ((r.state.gateway = false ∨ a = "*.*.*.*" ∨ a = "0.0.0.0/0") →
          r2.state.allow = ⟨[]⟩ ∧ r2.store.get? "proxy" "allow" = some "") ∧
        (r.state.gateway = true → a ≠ "*.*.*.*" → a ≠ "0.0.0.0/0" →
          r2.state.allow = r.state.allow ∧ r2.store.get? "proxy" "allow" = some a) := by
  intro E2 r a ha hh
  unfold propagation
  rw [ha]
  simp only
  by_cases hg : r.state.gateway = true
  · rw [if_pos hg]
    obtain ⟨r2, h1, h2, h3, h4, h5⟩ := propagationHostonly_spec E2 a
      ⟨{ r.state with listen := some [""] }, r.store.set "proxy" "listen" "", r.errors⟩ hh
    refine ⟨r2, h1, h2, h3, ?_, ?_⟩
    · intro hcase
      exact h4 hcase
    · intro _ hna hnb
      obtain ⟨ha1, ha2⟩ := h5 hg hna hnb
      refine ⟨ha1, ?_⟩
      rw [ha2]
      show ((r.store.set "proxy" "listen" "")).get? "proxy" "allow" = some a
      rw [Store.get?_set_other _ (by decide) _]
      exact ha
  · rw [if_neg hg]
    obtain ⟨r2, h1, h2, h3, h4, h5⟩ := propagationHostonly_spec E2 a r hh
    refine ⟨r2, h1, h2, h3, h4, ?_⟩
    intro hgt
    exact absurd hgt hg

def cfgResW : CfgRes := ⟨{ hostonly := true }, [(("proxy", "allow"), "*.*.*.*")], []⟩

/-- C4 witness: host-only with the default wide-open allow and gateway off
clears the allow rules and forces listen. -/
theorem C4_witness :
    ∃ r2, propagation Ew cfgResW = .ok r2 ∧ r2.state.listen = some [""] ∧
      r2.store.get? "proxy" "listen" = some "" ∧ r2.state.allow = ⟨[]⟩ ∧
      r2.store.get? "proxy" "allow" = some "" := by
  obtain ⟨r2, h1, h2, h3, h4, _⟩ :=
    C4_hostonly_propagation Ew cfgResW "*.*.*.*" (by decide) (by decide)
  obtain ⟨ha1, ha2⟩ := h4 (Or.inr (Or.inl rfl))
  exact ⟨r2, h1, h2, h3, ha1, ha2⟩

/-! ## Claim C5: typed initializers, validation errors, idempotence -/

theorem cfg_int_init_eq (E2 : Env) (sec name : String) (d : PyVal) (ov : Bool) (r : CfgRes)
    (hc : candidateOf sec name d ov r.store ≠ .none) :
    cfg_int_init E2 sec name d Option.none ov r =
      .ok ⟨r.state,
        r.store.set sec name (pyStr (intCoerced (candidateOf sec name d ov r.store)).1),
        if (intCoerced (candidateOf sec name d ov r.store)).2 then
          r.errors ++ ["Invalid integer value for " ++ sec ++ ":" ++ name]
        else r.errors⟩ := by
  unfold cfg_int_init
  rw [if_neg hc]
  rfl

theorem cfg_float_init_eq (E2 : Env) (sec name : String) (d : PyVal) (ov : Bool) (r : CfgRes)
    (hc : candidateOf sec name d ov r.store ≠ .none) :
    cfg_float_init E2 sec name d Option.none ov r =
      .ok ⟨r.state,
        r.store.set sec name (pyStr (floatCoerced (candidateOf sec name d ov r.store)).1),
        if (floatCoerced (candidateOf sec name d ov r.store)).2 then
          r.errors ++ ["Invalid float value for " ++ sec ++ ":" ++ name]
        else r.errors⟩ := by
  unfold cfg_float_init
  rw [if_neg hc]
  rfl

theorem pyToInt_none_cases {c : PyVal} (h : pyToInt c = Option.none) (hc : c ≠ .none) :
    ∃ s, c = .str s ∧ pyInt? s = Option.none := by
  cases c with
  | none => exact absurd rfl hc
  | int n => exact absurd h (by simp [pyToInt])
  | float q => exact absurd h (by simp [pyToInt])
  | str s => exact ⟨s, rfl, h⟩

theorem pyToFloat_none_cases {c : PyVal} (h : pyToFloat c = Option.none) (hc : c ≠ .none) :
    ∃ s, c = .str s ∧ pyFloat? s = Option.none := by
  cases c with
  | none => exact absurd rfl hc
  | int n => exact absurd h (by simp [pyToFloat])
  | float q => exact absurd h (by simp [pyToFloat])
  | str s => exact ⟨s, rfl, h⟩

theorem candidate_strip {sec name : String} {d : PyVal} {ov : Bool} {st : Store} {s : String}
    (h : candidateOf sec name d ov st = .str s)
    (hd : ∀ s2, d = .str s2 → pyStrip s2 = s2) : pyStrip s = s := by
  unfold candidateOf at h
  by_cases hov : ov = true
  · rw [if_pos hov] at h
    exact hd s h
  · rw [if_neg hov] at h
    cases hg : st.get? sec name with
    | none => rw [hg] at h; exact hd s h
    | some raw =>
      rw [hg] at h
      simp only [PyVal.str.injEq] at h
      rw [← h]
      exact pyStrip_idem raw

theorem candidate_float {sec name : String} {d : PyVal} {ov : Bool} {st : Store} {q0 : Rat}
    (h : candidateOf sec name d ov st = .float q0) : d = .float q0 := by
  unfold candidateOf at h
  by_cases hov : ov = true
  · rw [if_pos hov] at h; exact h
  · rw [if_neg hov] at h
    cases hg : st.get? sec name with
    | none => rw [hg] at h; exact h
    | some raw => rw [hg] at h; exact PyVal.noConfusion h

theorem pyToFloat_den {c : PyVal} {q : Rat} (h : pyToFloat c = some q)
    (hf : ∀ q0, c = .float q0 → ∃ m, q0.den ∣ 10 ^ m) : ∃ m, q.den ∣ 10 ^ m := by
  cases c with
  | none => exact absurd h (by simp [pyToFloat])
  | int n =>
    refine ⟨0, ?_⟩
    have hq : ((n : Rat)) = q := by simpa [pyToFloat] using h
    rw [← hq]
    simp
  | float q0 =>
    have hq : q0 = q := by simpa [pyToFloat] using h
    exact hq ▸ hf q0 rfl
  | str s => exact pyFloat?_den h

theorem candidateOf_set_self (sec name : String) (d : PyVal) (st : Store) (v : String) :
    candidateOf sec name d false (st.set sec name v) = .str (pyStrip v) := by
  unfold candidateOf
  rw [if_neg Bool.false_ne_true, Store.get?_set_self]

theorem int_second_value (sec name : String) (d : PyVal) (ov : Bool) (st : Store)
    (hd : ∀ s2, d = .str s2 → pyStrip s2 = s2)
    (hc : candidateOf sec name d ov st ≠ .none) :
    pyStr (intCoerced (candidateOf sec name d ov
        (st.set sec name (pyStr (intCoerced (candidateOf sec name d ov st)).1)))).1 =
      pyStr (intCoerced (candidateOf sec name d ov st)).1 ∧
    candidateOf sec name d ov
        (st.set sec name (pyStr (intCoerced (candidateOf sec name d ov st)).1)) ≠ .none := by
  by_cases hov : ov = true
  · have hsame : candidateOf sec name d ov
        (st.set sec name (pyStr (intCoerced (candidateOf sec name d ov st)).1)) =
        candidateOf sec name d ov st := by
      unfold candidateOf
      rw [if_pos hov, if_pos hov]
    rw [hsame]
    exact ⟨rfl, hc⟩
  · have hovf : ov = false := Bool.of_not_eq_true hov
    subst hovf
    have hc2 : candidateOf sec name d false
        (st.set sec name (pyStr (intCoerced (candidateOf sec name d false st)).1)) =
        .str (pyStrip (pyStr (intCoerced (candidateOf sec name d false st)).1)) :=
      candidateOf_set_self sec name d st _
    rw [hc2]
    refine ⟨?_, by simp⟩
    cases hparse : pyToInt (candidateOf sec name d false st) with
    | some n =>
      have hv : intCoerced (candidateOf sec name d false st) = (.int n, false) := by
        unfold intCoerced; rw [hparse]
      rw [hv]
      show pyStr (intCoerced (.str (pyStrip (strOfInt n)))).1 = strOfInt n
      have hp : pyToInt (PyVal.str (pyStrip (strOfInt n))) = some n := by
        show pyInt? (pyStrip (strOfInt n)) = some n
        rw [pyInt?_pyStrip, pyInt?_strOfInt]
      unfold intCoerced
      rw [hp]
      rfl
    | none =>
      obtain ⟨s, hcs, hps⟩ := pyToInt_none_cases hparse hc
      have hstrip : pyStrip s = s := candidate_strip hcs hd
      have hv : intCoerced (candidateOf sec name d false st) = (.str s, true) := by
        unfold intCoerced; rw [hparse, hcs]
      rw [hv]
      show pyStr (intCoerced (.str (pyStrip s))).1 = s
      rw [hstrip]
      have hp : pyToInt (PyVal.str s) = Option.none := hps
      unfold intCoerced
      rw [hp]
      rfl

theorem float_second_value (sec name : String) (d : PyVal) (ov : Bool) (st : Store)
    (hd : ∀ s2, d = .str s2 → pyStrip s2 = s2)
    (hfd : ∀ q0, d = .float q0 → ∃ m, q0.den ∣ 10 ^ m)
    (hc : candidateOf sec name d ov st ≠ .none) :
    pyStr (floatCoerced (candidateOf sec name d ov
        (st.set sec name (pyStr (floatCoerced (candidateOf sec name d ov st)).1)))).1 =
      pyStr (floatCoerced (candidateOf sec name d ov st)).1 ∧
    candidateOf sec name d ov
        (st.set sec name (pyStr (floatCoerced (candidateOf sec name d ov st)).1)) ≠ .none := by
  by_cases hov : ov = true
  · have hsame : candidateOf sec name d ov
        (st.set sec name (pyStr (floatCoerced (candidateOf sec name d ov st)).1)) =
        candidateOf sec name d ov st := by
      unfold candidateOf
      rw [if_pos hov, if_pos hov]
    rw [hsame]
    exact ⟨rfl, hc⟩
  · have hovf : ov = false := Bool.of_not_eq_true hov
    subst hovf
    have hc2 : candidateOf sec name d false
        (st.set sec name (pyStr (floatCoerced (candidateOf sec name d false st)).1)) =
        .str (pyStrip (pyStr (floatCoerced (candidateOf sec name d false st)).1)) :=
      candidateOf_set_self sec name d st _
    rw [hc2]
    refine ⟨?_, by simp⟩
    cases hparse : pyToFloat (candidateOf sec name d false st) with
    | some q =>
      obtain ⟨m, hden⟩ : ∃ m, q.den ∣ 10 ^ m :=
        pyToFloat_den hparse (fun q0 hq0 => hfd q0 (candidate_float hq0))
      have hv : floatCoerced (candidateOf sec name d false st) = (.float q, false) := by
        unfold floatCoerced; rw [hparse]
      rw [hv]
      show pyStr (floatCoerced (.str (pyStrip (floatStr q)))).1 = floatStr q
      have hp : pyToFloat (PyVal.str (pyStrip (floatStr q))) = some q := by
        show pyFloat? (pyStrip (floatStr q)) = some q
        rw [pyFloat?_pyStrip]
        exact pyFloat?_floatStr hden
      unfold floatCoerced
      rw [hp]
      rfl
    | none =>
      obtain ⟨s, hcs, hps⟩ := pyToFloat_none_cases hparse hc
      have hstrip : pyStrip s = s := candidate_strip hcs hd
      have hv : floatCoerced (candidateOf sec name d false st) = (.str s, true) := by
        unfold floatCoerced; rw [hparse, hcs]
      rw [hv]
      show pyStr (floatCoerced (.str (pyStrip s))).1 = s
      rw [hstrip]
      have hp : pyToFloat (PyVal.str s) = Option.none := hps
      unfold floatCoerced
      rw [hp]
      rfl

theorem cfg_int_init_idem (E2 : Env) (sec name : String) (d : PyVal) (ov : Bool)
    (r r2 : CfgRes) (hd : ∀ s2, d = .str s2 → pyStrip s2 = s2)
    (h1 : cfg_int_init E2 sec name d Option.none ov r = .ok r2) :
    ∃ r3, cfg_int_init E2 sec name d Option.none ov r2 = .ok r3 ∧ r3.store = r2.store := by
  have hc : candidateOf sec name d ov r.store ≠ .none := by
    intro he
    unfold cfg_int_init at h1
    rw [if_pos he] at h1
    exact Except.noConfusion h1
  rw [cfg_int_init_eq E2 sec name d ov r hc] at h1
  obtain ⟨hw, hc2⟩ := int_second_value sec name d ov r.store hd hc
  obtain rfl := Except.ok.inj h1
  refine ⟨_, cfg_int_init_eq E2 sec name d ov _ hc2, ?_⟩
  show (r.store.set sec name _).set sec name _ = r.store.set sec name _
  rw [hw]
  exact Store.set_set_same _ _ _ _

theorem cfg_float_init_idem (E2 : Env) (sec name : String) (d : PyVal) (ov : Bool)
    (r r2 : CfgRes) (hd : ∀ s2, d = .str s2 → pyStrip s2 = s2)
    (hfd : ∀ q0, d = .float q0 → ∃ m, q0.den ∣ 10 ^ m)
    (h1 : cfg_float_init E2 sec name d Option.none ov r = .ok r2) :
    ∃ r3, cfg_float_init E2 sec name d Option.none ov r2 = .ok r3 ∧ r3.store = r2.store := by
  have hc : candidateOf sec name d ov r.store ≠ .none := by
    intro he
    unfold cfg_float_init at h1
    rw [if_pos he] at h1
    exact Except.noConfusion h1
  rw [cfg_float_init_eq E2 sec name d ov r hc] at h1
  obtain ⟨hw, hc2⟩ := float_second_value sec name d ov r.store hd hfd hc
  obtain rfl := Except.ok.inj h1
  refine ⟨_, cfg_float_init_eq E2 sec name d ov _ hc2, ?_⟩
  show (r.store.set sec name _).set sec name _ = r.store.set sec name _
  rw [hw]
  exact Store.set_set_same _ _ _ _

/-- C5: for every int- or float-typed key, a candidate that fails to parse as
the declared type makes the initializer report a validation error naming the
section and key while still returning successfully (no abort), keeping the
unconverted value as fallback and writing it to the store; on every
successful run the final value sits in the canonical store in string form,
and re-running the initializer over the updated store leaves the store
unchanged (idempotent re-resolution). -/
theorem C5_typed_init (E2 : Env) (sec name : String) (d : PyVal) (ov : Bool) (r : CfgRes)
    (hd : ∀ s2, d = .str s2 → pyStrip s2 = s2)
    (hfd : ∀ q0, d = .float q0 → ∃ m, q0.den ∣ 10 ^ m)
    (hc : candidateOf sec name d ov r.store ≠ .none) :
    (∀ s, candidateOf sec name d ov r.store = .str s → pyInt? s = Option.none →
        cfg_int_init E2 sec name d Option.none ov r =
          .ok ⟨r.state, r.store.set sec name s,
            r.errors ++ ["Invalid integer value for " ++ sec ++ ":" ++ name]⟩) ∧
    (∀ s, candidateOf sec name d ov r.store = .str s → pyFloat? s = Option.none →
        cfg_float_init E2 sec name d Option.none ov r =
          .ok ⟨r.state, r.store.set sec name s,
            r.errors ++ ["Invalid float value for " ++ sec ++ ":" ++ name]⟩) ∧
    (∀ r2, cfg_int_init E2 sec name d Option.none ov r = .ok r2 →
        r2.store.get? sec name =
          some (pyStr (intCoerced (candidateOf sec name d ov r.store)).1) ∧
        ∃ r3, cfg_int_init E2 sec name d Option.none ov r2 = .ok r3 ∧
          r3.store = r2.store) ∧
    (∀ r2, cfg_float_init E2 sec name d Option.none ov r = .ok r2 →
        r2.store.get? sec name =
          some (pyStr (floatCoerced (candidateOf sec name d ov r.store)).1) ∧
        ∃ r3, cfg_float_init E2 sec name d Option.none ov r2 = .ok r3 ∧
          r3.store = r2.store) := by
  refine ⟨?_, ?_, ?_, ?_⟩
  · intro s hcs hps
    have h1 := cfg_int_init_eq E2 sec name d ov r hc
    rw [hcs] at h1
    have hv : intCoerced (PyVal.str s) = (PyVal.str s, true) := by
      unfold intCoerced
      rw [show pyToInt (PyVal.str s) = Option.none from hps]
    rw [hv] at h1
    exact h1
  · intro s hcs hps
    have h1 := cfg_float_init_eq E2 sec name d ov r hc
    rw [hcs] at h1
    have hv : floatCoerced (PyVal.str s) = (PyVal.str s, true) := by
      unfold floatCoerced
      rw [show pyToFloat (PyVal.str s) = Option.none from hps]
    rw [hv] at h1
    exact h1
  · intro r2 h2
    have h1 := cfg_int_init_eq E2 sec name d ov r hc
    rw [h1] at h2
    obtain rfl := Except.ok.inj h2
    exact ⟨Store.get?_set_self _ _ _ _, cfg_int_init_idem E2 sec name d ov r _ hd h1⟩
  · intro r2 h2
    have h1 := cfg_float_init_eq E2 sec name d ov r hc
    rw [h1] at h2
    obtain rfl := Except.ok.inj h2
    exact ⟨Store.get?_set_self _ _ _ _, cfg_float_init_idem E2 sec name d ov r _ hd hfd h1⟩

/-- C5 witness: `settings:idle` with unparsable default candidate `"abc"`
yields a named validation error, a successful result, and the fallback
written to the store. -/
theorem C5_witness :
    cfg_int_init Ew "settings" "idle" (.str "abc") Option.none false ⟨{}, [], []⟩ =
      .ok ⟨{}, Store.set [] "settings" "idle" "abc",
        [] ++ ["Invalid integer value for " ++ "settings" ++ ":" ++ "idle"]⟩ :=
  (C5_typed_init Ew "settings" "idle" (.str "abc") false ⟨{}, [], []⟩
    (by intro s2 h2; injection h2 with h3; rw [← h3]; decide)
    (fun q0 h2 => PyVal.noConfusion h2)
    (by decide)).1 "abc" (by decide) (by decide)

/-! ## Claim C1: layered precedence of the resolution passes -/

/-- The section a handled key is routed to by `cfg_init`. -/
def sectionOf (k : String) : String :=
  if k ∈ strKeys ∨ k ∈ proxyIntKeys then "proxy" else "settings"

/-- Keys that `cfg_init` stores in the canonical store. -/
def handledKeys : List String :=
  strKeys ++ proxyIntKeys ++ settingsIntKeys ++ ["socktimeout"]

/-- The string form that `cfg_init` writes to the store for key `k` from a
candidate value `c` (string keys pass the string through, int and float keys
write the coerced value's string form). -/
def storedOf (k : String) (c : PyVal) : Option String :=
  if k ∈ strKeys then (match c with | .str s => some s | _ => Option.none)
  else if k ∈ proxyIntKeys ∨ k ∈ settingsIntKeys then some (pyStr (intCoerced c).1)
  else some (pyStr (floatCoerced c).1)

theorem candidateOf_true (sec name : String) (d : PyVal) (st : Store) :
    candidateOf sec name d true st = d := by
  unfold candidateOf
  rw [if_pos rfl]

theorem candidateOf_false_congr {sec k : String} {d : PyVal} {st st2 : Store}
    (h : Store.get? st sec k = Store.get? st2 sec k) :
    candidateOf sec k d false st = candidateOf sec k d false st2 := by
  unfold candidateOf
  rw [if_neg Bool.false_ne_true, if_neg Bool.false_ne_true, h]

theorem cfg_str_init_store_shape (E2 : Env) (sec n : String) (v : PyVal) (cb : Option Callback)
    (ov : Bool) (r r2 : CfgRes) (h : cfg_str_init E2 sec n v cb ov r = .ok r2) :
    ∃ s, r2.store = r.store.set sec n s := by
  unfold cfg_str_init at h
  cases hc : candidateOf sec n v ov r.store with
  | str s =>
    rw [hc] at h
    have h2 : (match applyCallback? E2 cb (.str s) r.state with
        | .ok st => Except.ok (⟨st, r.store.set sec n s, r.errors⟩ : CfgRes)
        | .error e => .error e) = .ok r2 := h
    cases hcb : applyCallback? E2 cb (.str s) r.state with
    | ok st =>
      rw [hcb] at h2
      obtain rfl := Except.ok.inj h2
      exact ⟨s, rfl⟩
    | error e => rw [hcb] at h2; exact Except.noConfusion h2
  | none => rw [hc] at h; exact Except.noConfusion h
  | int n2 => rw [hc] at h; exact Except.noConfusion h
  | float q => rw [hc] at h; exact Except.noConfusion h

theorem cfg_int_init_store_shape (E2 : Env) (sec n : String) (v : PyVal) (cb : Option Callback)
    (ov : Bool) (r r2 : CfgRes) (h : cfg_int_init E2 sec n v cb ov r = .ok r2) :
    ∃ s, r2.store = r.store.set sec n s := by
  unfold cfg_int_init at h
  by_cases hc : candidateOf sec n v ov r.store = .none
  · rw [if_pos hc] at h; exact Except.noConfusion h
  · rw [if_neg hc] at h
    cases hcb : applyCallback? E2 cb (intCoerced (candidateOf sec n v ov r.store)).1 r.state with
    | ok st =>
      rw [hcb] at h
      obtain rfl := Except.ok.inj h
      exact ⟨_, rfl⟩
    | error e => rw [hcb] at h; exact Except.noConfusion h

theorem cfg_float_init_store_shape (E2 : Env) (sec n : String) (v : PyVal) (cb : Option Callback)
    (ov : Bool) (r r2 : CfgRes) (h : cfg_float_init E2 sec n v cb ov r = .ok r2) :
    ∃ s, r2.store = r.store.set sec n s := by
  unfold cfg_float_init at h
  by_cases hc : candidateOf sec n v ov r.store = .none
  · rw [if_pos hc] at h; exact Except.noConfusion h
  · rw [if_neg hc] at h
    cases hcb : applyCallback? E2 cb (floatCoerced (candidateOf sec n v ov r.store)).1 r.state with
    | ok st =>
      rw [hcb] at h
      obtain rfl := Except.ok.inj h
      exact ⟨_, rfl⟩
    | error e => rw [hcb] at h; exact Except.noConfusion h

theorem cfg_init_store_shape (E2 : Env) (n : String) (v : PyVal) (ov : Bool) (r r2 : CfgRes)
    (h : cfg_init E2 n v ov r = .ok r2) :
    r2.store = r.store ∨ ∃ sec s, r2.store = r.store.set sec n s := by
  unfold cfg_init at h
  by_cases h1 : n ∈ strKeys
  · rw [if_pos h1] at h
    obtain ⟨s, hs⟩ := cfg_str_init_store_shape E2 "proxy" n v (callbacks n) ov r r2 h
    exact Or.inr ⟨"proxy", s, hs⟩
  · rw [if_neg h1] at h
    by_cases h2 : n ∈ proxyIntKeys
    · rw [if_pos h2] at h
      obtain ⟨s, hs⟩ := cfg_int_init_store_shape E2 "proxy" n v (callbacks n) ov r r2 h
      exact Or.inr ⟨"proxy", s, hs⟩
    · rw [if_neg h2] at h
      by_cases h3 : n ∈ settingsIntKeys
      · rw [if_pos h3] at h
        obtain ⟨s, hs⟩ := cfg_int_init_store_shape E2 "settings" n v (callbacks n) ov r r2 h
        exact Or.inr ⟨"settings", s, hs⟩
      · rw [if_neg h3] at h
        by_cases h4 : n = "socktimeout"
        · rw [if_pos h4] at h
          obtain ⟨s, hs⟩ := cfg_float_init_store_shape E2 "settings" n v (callbacks n) ov r r2 h
          exact Or.inr ⟨"settings", s, hs⟩
        · rw [if_neg h4] at h
          by_cases h5 : n = "test" ∧ (callbacks n).isSome
          · rw [if_pos h5] at h
            cases hcb : applyCallback? E2 (callbacks n) v r.state with
            | ok st =>
              rw [hcb] at h
              obtain rfl := Except.ok.inj h
              exact Or.inl rfl
            | error e => rw [hcb] at h; exact Except.noConfusion h
          · rw [if_neg h5] at h
            obtain rfl := Except.ok.inj h
            exact Or.inl rfl

theorem cfg_init_get?_frame (E2 : Env) (n : String) (v : PyVal) (ov : Bool) (r r2 : CfgRes)
    (h : cfg_init E2 n v ov r = .ok r2) (sec k : String) (hne : n ≠ k) :
    Store.get? r2.store sec k = Store.get? r.store sec k := by
  rcases cfg_init_store_shape E2 n v ov r r2 h with heq | ⟨sec2, s, heq⟩
  · rw [heq]
  · rw [heq, Store.get?_set_other]
    intro hp
    exact hne (congrArg Prod.snd hp)

theorem runPass_cons (E2 : Env) (ov : Bool) (n : String) (v : PyVal)
    (rest : List (String × PyVal)) (r : CfgRes) :
    runPass E2 ov ((n, v) :: rest) r =
      match cfg_init E2 n v ov r with
      | .ok r2 => runPass E2 ov rest r2
      | .error e => .error e := rfl

theorem runPass_get?_frame (E2 : Env) (ov : Bool) (L : List (String × PyVal)) (r r2 : CfgRes)
    (h : runPass E2 ov L r = .ok r2) (sec k : String) (hk : k ∉ L.map Prod.fst) :
    Store.get? r2.store sec k = Store.get? r.store sec k := by
  induction L generalizing r with
  | nil =>
    obtain rfl := Except.ok.inj h
    rfl
  | cons p rest ih =>
    obtain ⟨n, v⟩ := p
    rw [runPass_cons] at h
    cases hstep : cfg_init E2 n v ov r with
    | ok rmid =>
      rw [hstep] at h
      have hne : n ≠ k := fun he => hk (by simp [he])
      have hrest : k ∉ rest.map Prod.fst := fun hm => hk (by simp [hm])
      rw [ih rmid h hrest, cfg_init_get?_frame E2 n v ov r rmid hstep sec k hne]
    | error e => rw [hstep] at h; exact Except.noConfusion h

theorem cfg_int_init_get?_self (E2 : Env) (sec n : String) (v : PyVal) (cb : Option Callback)
    (ov : Bool) (r r2 : CfgRes) (h : cfg_int_init E2 sec n v cb ov r = .ok r2) :
    Store.get? r2.store sec n = some (pyStr (intCoerced (candidateOf sec n v ov r.store)).1) := by
  unfold cfg_int_init at h
  by_cases hc : candidateOf sec n v ov r.store = .none
  · rw [if_pos hc] at h; exact Except.noConfusion h
  · rw [if_neg hc] at h
    cases hcb : applyCallback? E2 cb (intCoerced (candidateOf sec n v ov r.store)).1 r.state with
    | ok st =>
      rw [hcb] at h
      obtain rfl := Except.ok.inj h
      exact Store.get?_set_self _ _ _ _
    | error e => rw [hcb] at h; exact Except.noConfusion h

theorem cfg_float_init_get?_self (E2 : Env) (sec n : String) (v : PyVal) (cb : Option Callback)
    (ov : Bool) (r r2 : CfgRes) (h : cfg_float_init E2 sec n v cb ov r = .ok r2) :
    Store.get? r2.store sec n =
      some (pyStr (floatCoerced (candidateOf sec n v ov r.store)).1) := by
  unfold cfg_float_init at h
  by_cases hc : candidateOf sec n v ov r.store = .none
  · rw [if_pos hc] at h; exact Except.noConfusion h
  · rw [if_neg hc] at h
    cases hcb : applyCallback? E2 cb (floatCoerced (candidateOf sec n v ov r.store)).1 r.state with
    | ok st =>
      rw [hcb] at h
      obtain rfl := Except.ok.inj h
      exact Store.get?_set_self _ _ _ _
    | error e => rw [hcb] at h; exact Except.noConfusion h

theorem cfg_str_init_get?_self (E2 : Env) (sec n : String) (v : PyVal) (cb : Option Callback)
    (ov : Bool) (r r2 : CfgRes) (h : cfg_str_init E2 sec n v cb ov r = .ok r2) :
    ∃ s, candidateOf sec n v ov r.store = .str s ∧ Store.get? r2.store sec n = some s := by
  unfold cfg_str_init at h
  cases hc : candidateOf sec n v ov r.store with
  | str s =>
    rw [hc] at h
    have h2 : (match applyCallback? E2 cb (.str s) r.state with
        | .ok st => Except.ok (⟨st, r.store.set sec n s, r.errors⟩ : CfgRes)
        | .error e => .error e) = .ok r2 := h
    cases hcb : applyCallback? E2 cb (.str s) r.state with
    | ok st =>
      rw [hcb] at h2
      obtain rfl := Except.ok.inj h2
      exact ⟨s, rfl, Store.get?_set_self _ _ _ _⟩
    | error e => rw [hcb] at h2; exact Except.noConfusion h2
  | none => rw [hc] at h; exact Except.noConfusion h
  | int n2 => rw [hc] at h; exact Except.noConfusion h
  | float q => rw [hc] at h; exact Except.noConfusion h

theorem cfg_init_writes (E2 : Env) (k : String) (v : PyVal) (ov : Bool) (r r2 : CfgRes)
    (h : cfg_init E2 k v ov r = .ok r2) (hk : k ∈ handledKeys) :
    Store.get? r2.store (sectionOf k) k =
      storedOf k (candidateOf (sectionOf k) k v ov r.store) := by
  unfold cfg_init at h
  by_cases h1 : k ∈ strKeys
  · have hsec : sectionOf k = "proxy" := by unfold sectionOf; rw [if_pos (Or.inl h1)]
    rw [if_pos h1] at h
    obtain ⟨s, hcand, hget⟩ := cfg_str_init_get?_self E2 "proxy" k v (callbacks k) ov r r2 h
    rw [hsec, hget]
    unfold storedOf
    rw [if_pos h1, hcand]
  · rw [if_neg h1] at h
    by_cases h2 : k ∈ proxyIntKeys
    · have hsec : sectionOf k = "proxy" := by unfold sectionOf; rw [if_pos (Or.inr h2)]
      rw [if_pos h2] at h
      rw [hsec, cfg_int_init_get?_self E2 "proxy" k v (callbacks k) ov r r2 h]
      unfold storedOf
      rw [if_neg h1, if_pos (Or.inl h2)]
    · rw [if_neg h2] at h
      by_cases h3 : k ∈ settingsIntKeys
      · have hsec : sectionOf k = "settings" := by
          unfold sectionOf
          rw [if_neg (by rintro (hx | hx); exacts [h1 hx, h2 hx])]
        rw [if_pos h3] at h
        rw [hsec, cfg_int_init_get?_self E2 "settings" k v (callbacks k) ov r r2 h]
        unfold storedOf
        rw [if_neg h1, if_pos (Or.inr h3)]
      · rw [if_neg h3] at h
        by_cases h4 : k = "socktimeout"
        · have hsec : sectionOf k = "settings" := by
            unfold sectionOf
            rw [if_neg (by rintro (hx | hx); exacts [h1 hx, h2 hx])]
          rw [if_pos h4] at h
          rw [hsec, cfg_float_init_get?_self E2 "settings" k v (callbacks k) ov r r2 h]
          unfold storedOf
          rw [if_neg h1, if_neg (by rintro (hx | hx); exacts [h2 hx, h3 hx])]
        · exfalso
          unfold handledKeys at hk
          simp only [List.mem_append, List.mem_singleton] at hk
          rcases hk with ((hs | hp) | hse) | hso
          exacts [h1 hs, h2 hp, h3 hse, h4 hso]

theorem lookup_cons_self {β : Type} (k : String) (v : β) (rest : List (String × β)) :
    List.lookup k ((k, v) :: rest) = some v := by
  simp [List.lookup]

theorem lookup_cons_ne {β : Type} {k n : String} (v : β) (rest : List (String × β))
    (h : n ≠ k) : List.lookup k ((n, v) :: rest) = List.lookup k rest := by
  have hb : (k == n) = false := beq_eq_false_iff_ne.mpr (Ne.symm h)
  simp [List.lookup, hb]

theorem lookup_none_not_mem {β : Type} {L : List (String × β)} {k : String}
    (h : List.lookup k L = Option.none) : k ∉ L.map Prod.fst := by
  induction L with
  | nil => simp
  | cons p rest ih =>
    obtain ⟨n, v⟩ := p
    by_cases hn : n = k
    · subst hn
      rw [lookup_cons_self] at h
      exact Option.noConfusion h
    · rw [lookup_cons_ne v rest hn] at h
      intro hm
      rw [List.map_cons] at hm
      rcases List.mem_cons.mp hm with he | hm2
      · exact hn he.symm
      · exact ih h hm2

theorem lookup_map_str (L : List (String × String)) (k : String) :
    List.lookup k (L.map (fun p => (p.1, PyVal.str p.2))) =
      (List.lookup k L).map PyVal.str := by
  induction L with
  | nil => rfl
  | cons p rest ih =>
    obtain ⟨n, v⟩ := p
    by_cases hn : n = k
    · subst hn
      rw [List.map_cons]
      rw [show (((n, v).1, PyVal.str (n, v).2) : String × PyVal) = (n, .str v) from rfl]
      rw [lookup_cons_self, lookup_cons_self]
      rfl
    · rw [List.map_cons]
      rw [show (((n, v).1, PyVal.str (n, v).2) : String × PyVal) = (n, .str v) from rfl]
      rw [lookup_cons_ne _ _ hn, lookup_cons_ne _ _ hn, ih]

theorem map_fst_map_str (L : List (String × String)) :
    (L.map (fun p => (p.1, PyVal.str p.2))).map Prod.fst = L.map Prod.fst := by
  induction L with
  | nil => rfl
  | cons p rest ih => simp [ih]

theorem runPass_override_writes (E2 : Env) (L : List (String × PyVal))
    (k : String) (v : PyVal) (hk : k ∈ handledKeys) :
    ∀ r r2, runPass E2 true L r = .ok r2 → (L.map Prod.fst).Nodup →
      List.lookup k L = some v →
      Store.get? r2.store (sectionOf k) k = storedOf k v := by
  induction L with
  | nil =>
    intro r r2 h hnd hv
    exact Option.noConfusion hv
  | cons p rest ih =>
    intro r r2 h hnd hv
    obtain ⟨n, v0⟩ := p
    rw [runPass_cons] at h
    cases hstep : cfg_init E2 n v0 true r with
    | error e => rw [hstep] at h; exact Except.noConfusion h
    | ok rmid =>
      rw [hstep] at h
      by_cases hn : n = k
      · subst hn
        rw [lookup_cons_self] at hv
        obtain rfl := Option.some.inj hv
        have hw := cfg_init_writes E2 n v0 true r rmid hstep hk
        rw [candidateOf_true] at hw
        have hrest : n ∉ rest.map Prod.fst := by
          rw [List.map_cons] at hnd
          exact (List.nodup_cons.mp hnd).1
        rw [runPass_get?_frame E2 true rest rmid r2 h _ _ hrest, hw]
      · rw [lookup_cons_ne _ _ hn] at hv
        have hnd2 : (rest.map Prod.fst).Nodup := by
          rw [List.map_cons] at hnd
          exact (List.nodup_cons.mp hnd).2
        exact ih rmid r2 h hnd2 hv

theorem runPass_defaults_writes (E2 : Env) (L : List (String × PyVal))
    (k : String) (d : PyVal) (hk : k ∈ handledKeys) :
    ∀ r r2, runPass E2 false L r = .ok r2 → (L.map Prod.fst).Nodup →
      List.lookup k L = some d →
      Store.get? r2.store (sectionOf k) k =
        storedOf k (candidateOf (sectionOf k) k d false r.store) := by
  induction L with
  | nil =>
    intro r r2 h hnd hv
    exact Option.noConfusion hv
  | cons p rest ih =>
    intro r r2 h hnd hv
    obtain ⟨n, v0⟩ := p
    rw [runPass_cons] at h
    cases hstep : cfg_init E2 n v0 false r with
    | error e => rw [hstep] at h; exact Except.noConfusion h
    | ok rmid =>
      rw [hstep] at h
      by_cases hn : n = k
      · subst hn
        rw [lookup_cons_self] at hv
        obtain rfl := Option.some.inj hv
        have hw := cfg_init_writes E2 n v0 false r rmid hstep hk
        have hrest : n ∉ rest.map Prod.fst := by
          rw [List.map_cons] at hnd
          exact (List.nodup_cons.mp hnd).1
        rw [runPass_get?_frame E2 false rest rmid r2 h _ _ hrest, hw]
      · rw [lookup_cons_ne _ _ hn] at hv
        have hnd2 : (rest.map Prod.fst).Nodup := by
          rw [List.map_cons] at hnd
          exact (List.nodup_cons.mp hnd).2
        rw [ih rmid r2 h hnd2 hv]
        have hfr := cfg_init_get?_frame E2 n v0 false r rmid hstep (sectionOf k) k hn
        rw [candidateOf_false_congr hfr]

/-- C1: layered precedence of the resolution passes.  For every handled
configuration key, after the passes of `parse_config` complete, a value
supplied on the command line determines the canonical store entry for that
key regardless of environment and file input; with no command-line value an
environment value determines it regardless of file input; and with neither,
the defaults pass fixes it by reading through the file-backed store
(stripped file value if present, the declared default otherwise) — all
independent of the order in which other keys are declared, the later
override passes being the last writers. -/
theorem C1_layered_precedence (E2 : Env) (fileStore : Store)
    (envL flagsL : List (String × String)) (s0 : PxState) (r : CfgRes) (k : String)
    (hok : resolve_passes E2 fileStore envL flagsL s0 = .ok r)
    (hk : k ∈ handledKeys)
    (hndE : (envL.map Prod.fst).Nodup) (hndF : (flagsL.map Prod.fst).Nodup) :
    (∀ v, List.lookup k flagsL = some v →
        Store.get? r.store (sectionOf k) k = storedOf k (.str v)) ∧
    (List.lookup k flagsL = Option.none → ∀ v, List.lookup k envL = some v →
        Store.get? r.store (sectionOf k) k = storedOf k (.str v)) ∧
    (List.lookup k flagsL = Option.none → List.lookup k envL = Option.none →
        k ≠ "log" → ∀ d, List.lookup k DEFAULTS = some d →
        Store.get? r.store (sectionOf k) k =
          storedOf k (candidateOf (sectionOf k) k d false fileStore)) := by
  unfold resolve_passes at hok
  obtain ⟨r1, h1⟩ : ∃ r1, cfg_int_init E2 "settings" "log" (.str (pyStr s0.location))
      Option.none true ⟨s0, fileStore, []⟩ = .ok r1 := by
    cases hx : cfg_int_init E2 "settings" "log" (.str (pyStr s0.location))
        Option.none true ⟨s0, fileStore, []⟩ with
    | ok r1 => exact ⟨r1, rfl⟩
    | error e => rw [hx] at hok; exact Except.noConfusion hok
  rw [h1] at hok
  have hok1 : (match runPass E2 false DEFAULTS r1 with
      | .error e => (Except.error e : Except PxErr CfgRes)
      | .ok r2 =>
        match runPass E2 true (envL.map (fun p : String × String => (p.1, PyVal.str p.2))) r2 with
        | .error e => .error e
        | .ok r3 => runPass E2 true (flagsL.map (fun p : String × String => (p.1, PyVal.str p.2))) r3) =
      .ok r := hok
  obtain ⟨r2, h2⟩ : ∃ r2, runPass E2 false DEFAULTS r1 = .ok r2 := by
    cases hx : runPass E2 false DEFAULTS r1 with
    | ok r2 => exact ⟨r2, rfl⟩
    | error e => rw [hx] at hok1; exact Except.noConfusion hok1
  rw [h2] at hok1
  have hok2 : (match runPass E2 true (envL.map (fun p : String × String => (p.1, PyVal.str p.2))) r2 with
      | .error e => (Except.error e : Except PxErr CfgRes)
      | .ok r3 => runPass E2 true (flagsL.map (fun p : String × String => (p.1, PyVal.str p.2))) r3) =
      .ok r := hok1
  obtain ⟨r3, h3⟩ : ∃ r3, runPass E2 true
      (envL.map (fun p : String × String => (p.1, PyVal.str p.2))) r2 = .ok r3 := by
    cases hx : runPass E2 true (envL.map (fun p : String × String => (p.1, PyVal.str p.2))) r2 with
    | ok r3 => exact ⟨r3, rfl⟩
    | error e => rw [hx] at hok2; exact Except.noConfusion hok2
  rw [h3] at hok2
  have hok3 : runPass E2 true (flagsL.map (fun p : String × String => (p.1, PyVal.str p.2))) r3 = .ok r := hok2
  refine ⟨?_, ?_, ?_⟩
  · intro v hv
    exact runPass_override_writes E2 (flagsL.map (fun p : String × String => (p.1, PyVal.str p.2)))
      k (.str v) hk r3 r hok3 (by rw [map_fst_map_str]; exact hndF)
      (by rw [lookup_map_str, hv]; rfl)
  · intro hfn v hv
    have hmem : k ∉ (flagsL.map (fun p : String × String => (p.1, PyVal.str p.2))).map Prod.fst :=
      lookup_none_not_mem (by rw [lookup_map_str, hfn]; rfl)
    rw [runPass_get?_frame E2 true _ r3 r hok3 _ _ hmem]
    exact runPass_override_writes E2 (envL.map (fun p : String × String => (p.1, PyVal.str p.2)))
      k (.str v) hk r2 r3 h3 (by rw [map_fst_map_str]; exact hndE)
      (by rw [lookup_map_str, hv]; rfl)
  · intro hfn hen hlog d hd
    have hmemF : k ∉ (flagsL.map (fun p => (p.1, PyVal.str p.2))).map Prod.fst :=
      lookup_none_not_mem (by rw [lookup_map_str, hfn]; rfl)
    have hmemE : k ∉ (envL.map (fun p => (p.1, PyVal.str p.2))).map Prod.fst :=
      lookup_none_not_mem (by rw [lookup_map_str, hen]; rfl)
    rw [runPass_get?_frame E2 true _ r3 r hok3 _ _ hmemF,
        runPass_get?_frame E2 true _ r2 r3 h3 _ _ hmemE,
        runPass_defaults_writes E2 DEFAULTS k d hk r1 r2 h2 (by decide) hd]
    obtain ⟨s, hs⟩ := cfg_int_init_store_shape E2 "settings" "log"
      (.str (pyStr s0.location)) Option.none true ⟨s0, fileStore, []⟩ r1 h1
    have hsame : Store.get? r1.store (sectionOf k) k =
        Store.get? fileStore (sectionOf k) k := by
      rw [hs]
      exact Store.get?_set_other fileStore
        (fun hp => hlog (congrArg Prod.snd hp).symm) s
    rw [candidateOf_false_congr hsame]

/-- C1 witness: for key `port`, a file value 8080 is beaten by an
environment value 9090, which is beaten by the command-line value 9999. -/
theorem C1_witness :
    ∃ r, resolve_passes Ew [(("proxy", "port"), "8080")] [("port", "9090")]
        [("port", "9999")] {} = .ok r ∧
      Store.get? r.store (sectionOf "port") "port" = storedOf "port" (.str "9999") ∧
      storedOf "port" (.str "9999") = some "9999" := by
  cases h : resolve_passes Ew [(("proxy", "port"), "8080")] [("port", "9090")]
      [("port", "9999")] {} with
  | error e =>
    have h2 : (match resolve_passes Ew [(("proxy", "port"), "8080")] [("port", "9090")]
        [("port", "9999")] ({} : PxState) with
      | .ok _ => true
      | .error _ => false) = true := by decide
    rw [h] at h2
    exact Bool.noConfusion h2
  | ok r =>
    exact ⟨r, rfl,
      (C1_layered_precedence Ew [(("proxy", "port"), "8080")] [("port", "9090")]
        [("port", "9999")] {} r "port" h (by decide) (by decide) (by decide)).1
        "9999" (by decide),
      by decide⟩
